import Mathlib

/-!
# Verification of the blueberry-browser agent-server core

Shallow embedding of the agent-server core of the repository
(`src/agent-server/ToolRegistry.ts`, `AgentMemory.ts`, `AgentOrchestrator.ts`,
`AgentRuntime.ts`, `utils/json.ts`, `src/main/AgentExecutor.ts`) together with
proofs about the embedded definitions.

Modelling conventions:
* JavaScript machine integers / timestamps are modelled as `Nat` (only order
  and equality matter to the verified properties; no arithmetic overflows the
  53-bit safe range in the modelled code paths).
* `Date.now()` and `randomUUID()` are modelled by a logical clock and a fresh
  counter threaded through the orchestrator state.
* JS objects used as string-keyed records are modelled as association lists
  (first binding wins, as JS objects have unique keys).
* `async`/`await` sequencing inside one orchestration run is purely
  sequential in the source, so it is modelled by direct state passing.
* Thrown JS exceptions are modelled with `Except String`, carrying
  `error.message`.
-/

/-- A JS value stored in an action's `params` record, as far as the embedded
code inspects it: `validateAction` distinguishes `null`/`undefined` from
everything else, and the executor additionally inspects whether a value is a
string (`typeof v === "string"`), a number, or a boolean.  Other JS values
are abstracted by a tag. -/
inductive ParamValue where
  | null
  | undefined
  | str (s : String)
  | num (n : Int)
  | bool (b : Bool)
  | other (tag : String)
deriving DecidableEq, Repr

/-- `AgentAction` from `types.ts`.  `type` is a `String` because the
validator's unknown-tool branch is reachable with planner-supplied types that
are outside the `AgentActionType` union (the source casts planner output). -/
structure AgentAction where
  type : String
  params : List (String × ParamValue)
deriving DecidableEq, Repr

/-- One parameter rule of a tool schema (`{description, required?}`). -/
structure ParamRule where
  description : String
  required : Bool := false
deriving DecidableEq, Repr

/-- `AgentToolDefinition` from `types.ts`.  The `execution` and
`safetyNotes` fields are omitted: no verified property observes them. -/
structure AgentToolDefinition where
  name : String
  description : String
  schema : List (String × ParamRule)
deriving DecidableEq, Repr

/-- `TOOL_DEFINITIONS` from `ToolRegistry.ts`, in source order. -/
def TOOL_DEFINITIONS : List (String × AgentToolDefinition) :=
  [ ("navigate",
      { name := "navigate"
        description := "Open a new URL in the active tab."
        schema :=
          [ ("url", { description := "Absolute URL to open", required := true })
          , ("tabId", { description := "Optional tab id, defaults to current active tab." })
          , ("waitFor", { description := "Optional selector or keyword to wait for before proceeding." }) ] })
  , ("click",
      { name := "click"
        description := "Simulate a mouse click on an element."
        schema :=
          [ ("selector", { description := "CSS selector targeting the element to click.", required := true })
          , ("tabId", { description := "Optional tab id, defaults to current active tab." })
          , ("button", { description := "Mouse button to use (left, right, middle). Defaults left." })
          , ("waitForNavigation", { description := "Set true if the click is expected to trigger navigation." }) ] })
  , ("type",
      { name := "type"
        description := "Type text into an input or editable element."
        schema :=
          [ ("selector", { description := "CSS selector of input element.", required := true })
          , ("text", { description := "Text to type into the field.", required := true })
          , ("tabId", { description := "Optional tab id, defaults to current active tab." })
          , ("submit", { description := "Set true to submit the form after typing (e.g., pressing Enter)." })
          , ("clear", { description := "Set true to clear the input before typing." }) ] })
  , ("wait",
      { name := "wait"
        description := "Pause execution while waiting for a condition."
        schema :=
          [ ("ms", { description := "Milliseconds to wait when using a fixed delay." })
          , ("tabId", { description := "Optional tab id, defaults to current active tab." })
          , ("until", { description := "CSS selector or keyword condition to wait for to appear." })
          , ("timeoutMs", { description := "Optional timeout for condition waits." }) ] })
  , ("scroll",
      { name := "scroll"
        description := "Scroll within the page to reveal new content."
        schema :=
          [ ("direction", { description := "Direction to scroll (down, up, top, bottom).", required := true })
          , ("tabId", { description := "Optional tab id, defaults to current active tab." })
          , ("amount", { description := "Either pixel value or proportional amount to scroll (0-1)." })
          , ("selector", { description := "Optional selector for a scrollable container." }) ] })
  , ("extract",
      { name := "extract"
        description := "Extract structured information from the page."
        schema :=
          [ ("selector", { description := "CSS selector targeting elements containing desired content." })
          , ("tabId", { description := "Optional tab id, defaults to current active tab." })
          , ("attribute", { description := "Attribute name to read (e.g., textContent, href, value).", required := true })
          , ("purpose", { description := "Reason for extraction to guide LLM summarisation." }) ] })
  , ("finish",
      { name := "finish"
        description := "Indicate the task is complete with a final summary."
        schema :=
          [ ("status", { description := "success or failed", required := true })
          , ("summary", { description := "Explanation for the current status.", required := true }) ] }) ]

/-- `ToolRegistry.getTool`: indexing `TOOL_DEFINITIONS[type]`. -/
def getTool (type : String) : Option AgentToolDefinition :=
  (TOOL_DEFINITIONS.lookup type)

/-- Reading `action.params[key]` in JS: an absent property reads as
`undefined`. -/
def lookupParam (params : List (String × ParamValue)) (key : String) : ParamValue :=
  match params.lookup key with
  | some v => v
  | none => ParamValue.undefined

/-- `value === undefined || value === null` in `validateAction`. -/
def ParamValue.isMissing : ParamValue → Bool
  | .null => true
  | .undefined => true
  | _ => false

/-- Result record of `ToolRegistry.validateAction`. -/
structure ValidationResult where
  ok : Bool
  issues : Option (List String)
deriving DecidableEq, Repr

/-- The issue string pushed for a missing required parameter. -/
def missingParamIssue (key type : String) : String :=
  "Missing required parameter \"" ++ key ++ "\" for " ++ type ++ "."

/-- `ToolRegistry.validateAction` from `ToolRegistry.ts` lines 170-186. -/
def validateAction (action : AgentAction) : ValidationResult :=
  match getTool action.type with
  | none => { ok := false, issues := some ["Unknown tool \"" ++ action.type ++ "\"."] }
  | some tool =>
    let issues := tool.schema.foldl
      (fun acc kr =>
        if kr.2.required && (lookupParam action.params kr.1).isMissing
        then acc ++ [missingParamIssue kr.1 action.type]
        else acc) []
    if issues.length > 0 then { ok := false, issues := some issues }
    else { ok := true, issues := none }

/-- The required schema keys of `tool` that are absent/`null`/`undefined`
in `params` (specification-side view of the validator loop). -/
def missingRequired (tool : AgentToolDefinition) (params : List (String × ParamValue)) : List String :=
  (tool.schema.filter (fun kr => kr.2.required && (lookupParam params kr.1).isMissing)).map (·.1)

/-! ## AgentMemory (`AgentMemory.ts`) -/

/-- `MemoryEntryType` from `AgentMemory.ts`. -/
inductive MemoryEntryType where
  | thought
  | action
  | observation
  | summary
deriving DecidableEq, Repr

/-- `result` field of an `AgentObservation`. -/
inductive ObsResult where
  | success
  | error
deriving DecidableEq, Repr

/-- `observation.result.toUpperCase()`. -/
def ObsResult.upper : ObsResult → String
  | .success => "SUCCESS"
  | .error => "ERROR"

/-- `AgentObservation` from `types.ts`.  The `data` record holds JS values,
modelled as `ParamValue`s. -/
structure AgentObservation where
  result : ObsResult
  message : String
  data : Option (List (String × ParamValue)) := none
deriving DecidableEq, Repr

/-- `MemoryEntry` from `AgentMemory.ts`. -/
structure MemoryEntry where
  type : MemoryEntryType
  content : String
  timestamp : Nat
  metadata : Option (List (String × ParamValue)) := none
deriving DecidableEq, Repr

/-- `AgentMemory`: the `entriesByTask : Map<string, MemoryEntry[]>` is
modelled as a total function (a JS `Map.get` miss followed by `?? []`). -/
def AgentMemory : Type := String → List MemoryEntry

/-- The empty memory (`new AgentMemory()`). -/
def AgentMemory.empty : AgentMemory := fun _ => []

/-- `AgentMemory.remember`: append `entry` to the task's list. -/
def AgentMemory.remember (m : AgentMemory) (taskId : String) (entry : MemoryEntry) : AgentMemory :=
  fun id => if id = taskId then m taskId ++ [entry] else m id

/-- `AgentMemory.getRecent` (default limit 10 at call sites that omit it).
`list.slice(-limit)` keeps the last `limit` elements. -/
def AgentMemory.getRecent (m : AgentMemory) (taskId : String) (limit : Int) : List MemoryEntry :=
  let list := m taskId
  if limit ≤ 0 ∨ (list.length : Int) ≤ limit then list
  else list.drop (list.length - limit.toNat)

/-- `AgentMemory.clear`. -/
def AgentMemory.clear (m : AgentMemory) (taskId : String) : AgentMemory :=
  fun id => if id = taskId then [] else m id

/-! ## Task, step and plan data model (`types.ts`) -/

/-- `AgentTaskStatus`. -/
inductive TaskStatus where
  | pending
  | running
  | succeeded
  | failed
deriving DecidableEq, Repr

/-- `AgentStepStatus`. -/
inductive StepStatus where
  | pending
  | running
  | succeeded
  | failed
deriving DecidableEq, Repr

/-- `AgentTaskContext`. -/
structure AgentTaskContext where
  url : Option String := none
  pageTitle : Option String := none
  pageDescription : Option String := none
  startingHtmlExcerpt : Option String := none
deriving DecidableEq, Repr

/-- `AgentStep`.  `randomUUID()` step ids are abstracted to a fresh
counter value (only identity matters). -/
structure AgentStep where
  id : Nat
  index : Nat
  status : StepStatus
  createdAt : Nat
  updatedAt : Nat
  action : Option AgentAction := none
  observation : Option AgentObservation := none
  modelThought : Option String := none
deriving DecidableEq, Repr

/-- `AgentTask`. -/
structure AgentTask where
  id : String
  goal : String
  status : TaskStatus
  createdAt : Nat
  updatedAt : Nat
  steps : List AgentStep
  summary : Option String := none
  context : Option AgentTaskContext := none
  lastError : Option String := none
deriving DecidableEq, Repr

/-- Status field of a `finish` directive (`"success" | "failed"`). -/
inductive FinishStatus where
  | success
  | failed
deriving DecidableEq, Repr

/-- The `finish` component of `AgentPlanOutput`. -/
structure FinishDirective where
  status : FinishStatus
  summary : String
deriving DecidableEq, Repr

/-- `AgentPlanOutput`. -/
structure AgentPlanOutput where
  thought : String
  action : Option AgentAction := none
  finish : Option FinishDirective := none
  caution : Option String := none
deriving DecidableEq, Repr

/-- `ActionExecutionResult`.  `didTerminate?: boolean` is an optional field,
so its truthiness test in the orchestrator is `getD false`. -/
structure ActionExecutionResult where
  observation : AgentObservation
  didTerminate : Option Bool := none
  summary : Option String := none
deriving DecidableEq, Repr

/-- Lifecycle events, as emitted on the runtime's `EventEmitter`.  Payloads
are reduced to the fields the verified properties observe (`step-*` events
carry the step's id instead of the whole step object). -/
inductive AgentEvent where
  | taskCreated (taskId : String)
  | taskStarted (taskId : String)
  | taskUpdated (taskId : String)
  | planningStarted (taskId : String) (memoryCount : Nat)
  | planningFinished (taskId : String) (thought : String)
      (action : Option AgentAction) (finish : Option FinishDirective)
  | stepCreated (taskId : String) (stepId : Nat)
  | stepExecuting (taskId : String) (stepId : Nat) (action : AgentAction)
  | stepUpdated (taskId : String) (stepId : Nat)
  | taskCompleted (taskId : String) (summary : String)
  | taskFailed (taskId : String) (error : String)
  | taskError (taskId : String) (error : String)
deriving DecidableEq, Repr

/-- The event name an `AgentEvent` is emitted under. -/
def AgentEvent.name : AgentEvent → String
  | .taskCreated _ => "task-created"
  | .taskStarted _ => "task-started"
  | .taskUpdated _ => "task-updated"
  | .planningStarted _ _ => "planning-started"
  | .planningFinished _ _ _ _ => "planning-finished"
  | .stepCreated _ _ => "step-created"
  | .stepExecuting _ _ _ => "step-executing"
  | .stepUpdated _ _ => "step-updated"
  | .taskCompleted _ _ => "task-completed"
  | .taskFailed _ _ => "task-failed"
  | .taskError _ _ => "task-error"

/-! ## Orchestrator (`AgentOrchestrator.ts`) -/

/-- Input record of `AgentModelClient.plan`. -/
structure PlanInput where
  task : AgentTask
  recentMemory : List MemoryEntry
  tools : List AgentToolDefinition
  stepCount : Nat

/-- Payload handed to the executor callback. -/
structure ExecPayload where
  task : AgentTask
  step : AgentStep
  action : AgentAction

/-- `ToolRegistry.getTools()`. -/
def getTools : List AgentToolDefinition := TOOL_DEFINITIONS.map (·.2)

/-- The orchestrator's collaborators.  `planner` models
`AgentModelClient.plan` and `executor` the registered `AgentExecutor`; both
are `async` in the source and may throw, modelled with `Except String`
carrying `error.message`. -/
structure OrchestratorEnv where
  planner : PlanInput → Except String AgentPlanOutput
  executor : ExecPayload → Except String ActionExecutionResult
  maxSteps : Nat

/-- Mutable context of one orchestration run: the task being driven, the
shared memory, the events emitted so far (in emission order), a logical
clock for `Date.now()` and a counter for `randomUUID()`. -/
structure OrchState where
  task : AgentTask
  memory : AgentMemory
  events : List AgentEvent
  now : Nat
  nextId : Nat

/-- `emitter.emit(event, payload)`. -/
def OrchState.emit (st : OrchState) (e : AgentEvent) : OrchState :=
  { st with events := st.events ++ [e] }

/-- `this.memory.remember(task.id, {type, content, timestamp: Date.now(), metadata?})`. -/
def OrchState.rememberEntry (st : OrchState) (type : MemoryEntryType) (content : String)
    (metadata : Option (List (String × ParamValue)) := none) : OrchState :=
  { st with
    memory := st.memory.remember st.task.id
      { type := type, content := content, timestamp := st.now, metadata := metadata }
    now := st.now + 1 }

/-- Abstract `JSON.stringify(action.params)` (the resulting string is not
observed by any verified property). -/
def ParamValue.stringify : ParamValue → String
  | .null => "null"
  | .undefined => "undefined"
  | .str s => "\"" ++ s ++ "\""
  | .num n => toString n
  | .bool b => toString b
  | .other tag => tag

/-- Abstract `JSON.stringify` of a params record. -/
def stringifyParams (params : List (String × ParamValue)) : String :=
  "\x7b" ++ String.intercalate ","
    (params.map (fun kv => "\"" ++ kv.1 ++ "\":" ++ kv.2.stringify)) ++ "\x7d"

/-- `AgentMemory.summarise` (`AgentMemory.ts` lines 29-50): builds the
textual summary, appends it as a `summary` entry, returns both. -/
def AgentMemory.summarise (m : AgentMemory) (task : AgentTask)
    (observation : AgentObservation) (now : Nat) : String × AgentMemory :=
  let parts : List String :=
    ["Goal: " ++ task.goal, "Result: " ++ observation.result.upper, observation.message]
  let parts :=
    match observation.data with
    | some data =>
      let serialised := String.intercalate "\n" (data.map (fun kv => kv.1 ++ ": " ++ kv.2.stringify))
      if serialised.length > 0 then parts ++ ["\nAdditional Data:\n" ++ serialised] else parts
    | none => parts
  let summary := String.intercalate "\n" parts
  (summary, m.remember task.id { type := .summary, content := summary, timestamp := now })

/-- The record `planStep` hands to `modelClient.plan`. -/
def planInput (st : OrchState) : PlanInput :=
  { task := st.task
    recentMemory := st.memory.getRecent st.task.id 16
    tools := getTools
    stepCount := st.task.steps.length }

/-- `AgentOrchestrator.planStep`. -/
def planStep (env : OrchestratorEnv) (st : OrchState) :
    OrchState × Except String AgentPlanOutput :=
  let recentMemory := st.memory.getRecent st.task.id 16
  let st := st.emit (.planningStarted st.task.id recentMemory.length)
  match env.planner (planInput st) with
  | .error msg => (st, .error msg)
  | .ok plan =>
    let st := st.rememberEntry .thought plan.thought
    let st := st.emit (.planningFinished st.task.id plan.thought plan.action plan.finish)
    (st, .ok plan)

/-- `AgentOrchestrator.createStep`. -/
def createStep (st : OrchState) (plan : AgentPlanOutput) : AgentStep × OrchState :=
  let step : AgentStep :=
    { id := st.nextId
      index := st.task.steps.length
      status := .running
      createdAt := st.now
      updatedAt := st.now
      action := plan.action
      modelThought := some plan.thought }
  let task := { st.task with steps := st.task.steps ++ [step], updatedAt := st.now }
  let st := { st with task := task, nextId := st.nextId + 1, now := st.now + 1 }
  (step, st.emit (.stepCreated st.task.id step.id))

/-- `AgentOrchestrator.executeStep` up to and including the executor call. -/
def executeStep (env : OrchestratorEnv) (st : OrchState) (step : AgentStep)
    (action : AgentAction) : OrchState × Except String ActionExecutionResult :=
  let st := st.emit (.stepExecuting st.task.id step.id action)
  let st := st.rememberEntry .action (action.type ++ " -> " ++ stringifyParams action.params)
  (st, env.executor { task := st.task, step := step, action := action })

/-- `AgentOrchestrator.finaliseStep`.  The source mutates the step object
held inside `task.steps`; the model rewrites the entry at the step's index. -/
def finaliseStep (st : OrchState) (step : AgentStep) (observation : AgentObservation) :
    OrchState :=
  let fstep :=
    { step with
      status := if observation.result = .success then .succeeded else .failed
      observation := some observation
      updatedAt := st.now }
  let task := { st.task with steps := st.task.steps.set fstep.index fstep, updatedAt := st.now }
  let st := { st with task := task, now := st.now + 1 }
  let st := st.rememberEntry .observation
    (observation.result.upper ++ ": " ++ observation.message) observation.data
  st.emit (.stepUpdated st.task.id step.id)

/-- `AgentOrchestrator.finishTask`. -/
def finishTask (st : OrchState) (summary : String) : OrchState :=
  let task := { st.task with status := .succeeded, summary := some summary, updatedAt := st.now }
  let st := { st with task := task, now := st.now + 1 }
  let st := st.emit (.taskCompleted st.task.id summary)
  st.rememberEntry .summary summary

/-- `AgentOrchestrator.completeFromFinish`. -/
def completeFromFinish (st : OrchState) (summary : String) (finish : FinishDirective) :
    OrchState :=
  match finish.status with
  | .success => finishTask st summary
  | .failed =>
    let task :=
      { st.task with
        status := .failed
        lastError := some summary
        summary := some summary
        updatedAt := st.now }
    let st := { st with task := task, now := st.now + 1 }
    st.emit (.taskFailed st.task.id summary)

/-- The `catch` block of `AgentOrchestrator.run` (lines 91-104). -/
def applyCatch (st : OrchState) (message : String) : OrchState :=
  let st := { st with task := { st.task with lastError := some message } }
  let st := st.rememberEntry .observation ("Error: " ++ message)
  let st := st.emit (.taskError st.task.id message)
  let st :=
    { st with
      task := { st.task with updatedAt := st.now, status := .failed }
      now := st.now + 1 }
  st.emit (.taskFailed st.task.id message)

/-- Result of the `try` body of one loop iteration: it threw, it executed a
`return`, or the loop proceeds to the next iteration. -/
inductive IterOutcome where
  | thrown (message : String)
  | returned
  | next
deriving DecidableEq, Repr

/-- The `try` body of one iteration of `AgentOrchestrator.run`'s loop
(lines 50-90). -/
def tryIteration (env : OrchestratorEnv) (st : OrchState) : OrchState × IterOutcome :=
  match planStep env st with
  | (st, .error msg) => (st, .thrown msg)
  | (st, .ok plan) =>
    let st :=
      match plan.caution with
      | some caution => st.rememberEntry .thought ("Safety note: " ++ caution)
      | none => st
    match plan.finish with
    | some finish => (completeFromFinish st finish.summary finish, .returned)
    | none =>
      match plan.action with
      | none => (st, .thrown "Agent returned neither an action nor a finish directive.")
      | some action =>
        let actionValidation := validateAction action
        if actionValidation.ok = false then
          (st, .thrown ("Invalid action returned: " ++
            (match actionValidation.issues with
             | some issues => String.intercalate ", " issues
             | none => "undefined")))
        else
          let (step, st) := createStep st plan
          match executeStep env st step action with
          | (st, .error msg) => (st, .thrown msg)
          | (st, .ok execution) =>
            let st := finaliseStep st step execution.observation
            if execution.didTerminate.getD false then
              match execution.summary with
              | some s => (finishTask st s, .returned)
              | none =>
                let p := st.memory.summarise st.task execution.observation st.now
                let st := { st with memory := p.2, now := st.now + 1 }
                (finishTask st p.1, .returned)
            else (st, .next)

/-- One iteration of the loop with its `catch`; the `Bool` is `true` when
the loop continues with the next iteration. -/
def runIteration (env : OrchestratorEnv) (st : OrchState) : OrchState × Bool :=
  match tryIteration env st with
  | (st, .thrown msg) => (applyCatch st msg, false)
  | (st, .returned) => (st, false)
  | (st, .next) => (st, true)

/-- The `for` loop of `AgentOrchestrator.run` plus the budget-exhaustion
epilogue (lines 49-116), with the remaining iteration count as fuel. -/
def runLoop (env : OrchestratorEnv) (st : OrchState) : Nat → OrchState
  | 0 =>
    let p := st.memory.summarise st.task
      { result := .error, message := "Max step count reached without completion." } st.now
    let st := { st with memory := p.2, now := st.now + 1 }
    completeFromFinish st p.1 { status := .failed, summary := p.1 }
  | fuel + 1 =>
    match runIteration env st with
    | (st, false) => st
    | (st, true) => runLoop env st fuel

/-- `AgentOrchestrator.run`. -/
def run (env : OrchestratorEnv) (st : OrchState) : OrchState :=
  let st := { st with task := { st.task with status := .running } }
  let st := st.emit (.taskStarted st.task.id)
  runLoop env st env.maxSteps

/-! ## JavaScript string primitives -/

/-- The JavaScript `WhiteSpace`/`LineTerminator` character class used by
`String.prototype.trim`. -/
def isJsWs (c : Char) : Bool :=
  c = ' ' || c = '\t' || c = '\n' || c.val = 13 || c.val = 11 || c.val = 12 ||
  c.val = 0xa0 || c.val = 0x1680 || (0x2000 ≤ c.val && c.val ≤ 0x200a) ||
  c.val = 0x2028 || c.val = 0x2029 || c.val = 0x202f || c.val = 0x205f ||
  c.val = 0x3000 || c.val = 0xfeff

/-- Whitespace accepted between tokens by `JSON.parse` (a strict subset of
the `trim` class). -/
def isJsonWs (c : Char) : Bool :=
  c = ' ' || c = '\t' || c = '\n' || c.val = 13

/-- `String.prototype.trim` on the underlying character list. -/
def jsTrimL (l : List Char) : List Char :=
  ((l.dropWhile isJsWs).reverse.dropWhile isJsWs).reverse

/-- `String.prototype.trim`. -/
def jsTrim (s : String) : String :=
  String.mk (jsTrimL s.data)

/-- `haystack.indexOf(c)` for a single-character needle, as an `Option`
(`none` stands for `-1`). -/
def jsIndexOf (l : List Char) (c : Char) : Option Nat :=
  l.findIdx? (· = c)

/-- `haystack.lastIndexOf(c)` for a single-character needle. -/
def jsLastIndexOf (l : List Char) (c : Char) : Option Nat :=
  match (l.reverse.findIdx? (· = c)) with
  | some k => some (l.length - 1 - k)
  | none => none

/-- `url.startsWith(prefix)` on the underlying character lists. -/
def jsStartsWith (s pre : String) : Bool :=
  pre.data.isPrefixOf s.data

/-- `s.slice(i, j)` for `0 ≤ i ≤ j` (the only shape the modelled code
uses). -/
def jsSlice (l : List Char) (i j : Nat) : List Char :=
  (l.drop i).take (j - i)

/-! ## Executor (`src/main/AgentExecutor.ts`)

The browser side (`Window`, `Tab`, `tab.loadURL`, `tab.runJs`) is the
external world; its responses enter the model as oracle fields of
`BrowserWorld`.  `handleNavigate` — the handler every verified claim about
the executor concerns — is translated in full; the remaining handlers
(`click`, `type`, `wait`, `scroll`, `extract`) interact with the page
exclusively through injected scripts, so their outcomes are oracle values
wholesale. -/

/-- The `agentSafetyConfig` record imported from
`src/main/guardrails/config`.  That module is not part of the sources under
verification, so the constants stay parameters. -/
structure SafetyConfig where
  maxSteps : Nat
  maxParallelTasks : Nat
  maxWaitMs : Nat
  blockedOrigins : List String
  restrictedSelectors : List String

/-- A browser tab (identity only). -/
structure Tab where
  id : String
deriving DecidableEq, Repr

/-- The `Window` surface used by `resolveTab`. -/
structure WindowModel where
  tabs : List (String × Tab)
  activeTab : Option Tab

/-- Result shape of the polling `waitForSelector` script
(`{found: boolean; text?: string | null}`; `null` and `undefined` text are
not distinguished by the modelled code). -/
structure WaitResult where
  found : Bool
  text : Option String := none

/-- Oracle for the external effects of the executor. -/
structure BrowserWorld where
  /-- `await tab.loadURL(url)`; a rejected promise carries a message. -/
  loadURL : String → String → Except String Unit
  /-- The `waitForSelector` script outcome for (tab id, selector, timeout). -/
  waitForSelector : String → String → Nat → WaitResult
  /-- Outcomes of `handleClick`/`handleType`/`handleWait`/`handleScroll`/
  `handleExtract` (page-script driven). -/
  handleClick : List (String × ParamValue) → Except String ActionExecutionResult
  handleType : List (String × ParamValue) → Except String ActionExecutionResult
  handleWait : List (String × ParamValue) → Except String ActionExecutionResult
  handleScroll : List (String × ParamValue) → Except String ActionExecutionResult
  handleExtract : List (String × ParamValue) → Except String ActionExecutionResult

/-- `resolveTab` from `AgentExecutor.ts`. -/
def resolveTab (window : WindowModel) (tabId : ParamValue) : Option Tab :=
  match tabId with
  | .str s =>
    if s.length > 0 then
      match window.tabs.lookup s with
      | some specific => some specific
      | none => window.activeTab
    else window.activeTab
  | _ => window.activeTab

/-- `url.split(":")[0] + ":"` as interpolated in the blocked-origin error. -/
def urlSchemePrefix (url : String) : String :=
  String.mk (url.data.takeWhile (fun c => c ≠ ':')) ++ ":"

/-- `handleNavigate` from `AgentExecutor.ts` lines 95-138.  A thrown
`Error` is `.error message`. -/
def handleNavigate (cfg : SafetyConfig) (world : BrowserWorld) (window : WindowModel)
    (params : List (String × ParamValue)) : Except String ActionExecutionResult :=
  match resolveTab window (lookupParam params "tabId") with
  | none =>
    .ok { observation := { result := .error, message := "No active tab available for navigation." } }
  | some tab =>
    match lookupParam params "url" with
    | .str url =>
      if url = "" then .error "navigate action requires a URL string."
      else if cfg.blockedOrigins.any (fun pre => jsStartsWith url pre) then
        .error ("Navigation to URLs starting with \"" ++ urlSchemePrefix url ++
          "\" is blocked by safety policy.")
      else
        match world.loadURL tab.id url with
        | .error e => .error e
        | .ok _ =>
          let waitFor : Option String :=
            match lookupParam params "waitFor" with
            | .str s => if 0 < (jsTrim s).length then some s else none
            | _ => none
          match waitFor with
          | some selector =>
            let waitResult := world.waitForSelector tab.id selector cfg.maxWaitMs
            if waitResult.found = false then
              .ok { observation :=
                { result := .error
                  message := "Navigated to " ++ url ++ ", but selector \"" ++ selector ++
                    "\" not found within timeout." } }
            else
              .ok { observation :=
                { result := .success
                  message := "Navigated to " ++ url ++ "."
                  data := some [("url", .str url)] } }
          | none =>
            .ok { observation :=
              { result := .success
                message := "Navigated to " ++ url ++ "."
                data := some [("url", .str url)] } }
    | _ => .error "navigate action requires a URL string."

/-- `createAgentExecutor` from `AgentExecutor.ts` lines 50-93: dispatch on
the action type, with the surrounding `try`/`catch` that converts a thrown
error into a plain error observation — crucially *without* `didTerminate`. -/
def createAgentExecutor (cfg : SafetyConfig) (world : BrowserWorld) (window : WindowModel)
    (payload : ExecPayload) : ActionExecutionResult :=
  let attempt : Except String ActionExecutionResult :=
    if payload.action.type = "navigate" then
      handleNavigate cfg world window payload.action.params
    else if payload.action.type = "click" then world.handleClick payload.action.params
    else if payload.action.type = "type" then world.handleType payload.action.params
    else if payload.action.type = "wait" then world.handleWait payload.action.params
    else if payload.action.type = "scroll" then world.handleScroll payload.action.params
    else if payload.action.type = "extract" then world.handleExtract payload.action.params
    else if payload.action.type = "finish" then
      .ok { observation := { result := .success, message := "Task marked as finished." }
            didTerminate := some true }
    else
      .ok { observation :=
              { result := .error
                message := "Unsupported action type " ++ payload.action.type ++ "." }
            didTerminate := some true }
  match attempt with
  | .ok result => result
  | .error e => { observation := { result := .error, message := e } }

/-! ## Runtime scheduler (`AgentRuntime.ts`)

The runtime owns the task store (an insertion-ordered `Map`), the FIFO
`queue` of `TaskQueueItem`s and the `activeTaskIds` set.  Orchestrations run
concurrently between scheduler activations; the scheduler itself
(`drainQueue` and the completion continuations wired in it) runs atomically
on the JS event loop.  The model is therefore a transition system whose
commands are the scheduler's atomic activations: a task being enqueued
(`createTask`'s tail), and an orchestration settling (`runTask` resolving or
rejecting).  `started` is a ghost log recording the order in which tasks
were handed to `runTask`. -/

/-- Scheduler state.  `active` is `activeTaskIds` as an insertion list. -/
structure RuntimeState where
  tasks : List (String × AgentTask)
  queue : List String
  active : List String
  started : List String
  events : List AgentEvent
  now : Nat

/-- Replace the stored record of task `id` (the source mutates the single
shared `AgentTask` object held by the `Map`). -/
def updateTask (tasks : List (String × AgentTask)) (id : String)
    (f : AgentTask → AgentTask) : List (String × AgentTask) :=
  tasks.map (fun kv => if kv.1 = id then (kv.1, f kv.2) else kv)

/-- `task.status = "running"`, the first mutation `AgentOrchestrator.run`
performs on a freshly started task; in the model it is applied at the moment
`drainQueue` hands the task to `runTask`. -/
def markRunning (tasks : List (String × AgentTask)) (id : String) :
    List (String × AgentTask) :=
  updateTask tasks id (fun t => { t with status := .running })

/-- One pass of the `while` loop in `drainQueue` (lines 117-136), with the
queue length as (sufficient) structural fuel. -/
def drainAux (limit : Nat) : Nat → RuntimeState → RuntimeState
  | 0, st => st
  | fuel + 1, st =>
    match st.queue with
    | [] => st
    | id :: rest =>
      if st.active.length < limit then
        drainAux limit fuel
          { st with
            queue := rest
            active := st.active ++ [id]
            started := st.started ++ [id]
            tasks := markRunning st.tasks id }
      else st

/-- `AgentRuntime.drainQueue`. -/
def drainQueue (limit : Nat) (st : RuntimeState) : RuntimeState :=
  drainAux limit st.queue.length st

/-- Atomic scheduler activations. -/
inductive RuntimeCmd where
  /-- `createTask` succeeded: the fresh pending task is stored,
  `task-created` is emitted and the task enqueued (lines 71-83, 110-115). -/
  | enqueue (task : AgentTask)
  /-- `orchestrator.run(task)` resolved; `final` is the task object as the
  orchestrator left it.  The `.then` continuation in `drainQueue` releases
  the slot and re-drains. -/
  | completeOk (id : String) (final : AgentTask)
  /-- `orchestrator.run(task)` rejected with `error.message = error`:
  `runTask`'s `catch` (lines 138-149) marks the task failed, records
  `lastError`, emits `task-failed` and rethrows; the `.catch` continuation
  in `drainQueue` then releases the slot and re-drains. -/
  | completeErr (id : String) (error : String)

/-- The scheduler transition function. -/
def runtimeStep (limit : Nat) (st : RuntimeState) : RuntimeCmd → RuntimeState
  | .enqueue task =>
    drainQueue limit
      { st with
        tasks := st.tasks ++ [(task.id, task)]
        events := st.events ++ [.taskCreated task.id]
        queue := st.queue ++ [task.id] }
  | .completeOk id final =>
    drainQueue limit
      { st with
        tasks := updateTask st.tasks id (fun _ => final)
        active := st.active.erase id }
  | .completeErr id error =>
    drainQueue limit
      { st with
        tasks := updateTask st.tasks id
          (fun t => { t with status := .failed, updatedAt := st.now, lastError := some error })
        events := st.events ++ [.taskFailed id error]
        active := st.active.erase id
        now := st.now + 1 }

/-- A whole scheduler history. -/
def runtimeRun (limit : Nat) (st : RuntimeState) (cmds : List RuntimeCmd) : RuntimeState :=
  cmds.foldl (runtimeStep limit) st

/-- The runtime before any task is created. -/
def initialRuntimeState : RuntimeState :=
  { tasks := [], queue := [], active := [], started := [], events := [], now := 0 }

/-- The ids of the tasks a command list enqueues, in submission order. -/
def enqueuedIds : List RuntimeCmd → List String
  | [] => []
  | .enqueue task :: rest => task.id :: enqueuedIds rest
  | _ :: rest => enqueuedIds rest

/-- Well-formedness of a command against a state: enqueued tasks are fresh
and pending (as `createTask` builds them), and completions settle a started
(active) task; an orchestration never settles while its task is still
queued, and `orchestrator.run` leaves the task in a terminal status (every
path of `run` ends in `succeeded` or `failed`, see `run_status_terminal`). -/
def CmdWF (st : RuntimeState) : RuntimeCmd → Prop
  | .enqueue task => st.tasks.lookup task.id = none ∧ task.status = .pending
  | .completeOk id final =>
    id ∈ st.active ∧ id ∉ st.queue ∧ final.status ≠ .running ∧ final.status ≠ .pending
  | .completeErr id _ => id ∈ st.active ∧ id ∉ st.queue

/-- Well-formedness of a command history from a state. -/
def TraceWF (limit : Nat) : RuntimeState → List RuntimeCmd → Prop
  | _, [] => True
  | st, cmd :: rest => CmdWF st cmd ∧ TraceWF limit (runtimeStep limit st cmd) rest

/-- The tasks currently in `running` status, by store entry. -/
def runningIds (st : RuntimeState) : List String :=
  (st.tasks.filter (fun kv => kv.2.status = .running)).map (·.1)

/-- Structural well-formedness of a scheduler state: capacity respected,
no duplicate ids in flight, queued tasks are not active, every id in
flight has a store entry, every `running` store entry is active, store
keys are unique. -/
def RuntimeInv (limit : Nat) (st : RuntimeState) : Prop :=
  st.active.length ≤ limit ∧
  st.active.Nodup ∧
  st.queue.Nodup ∧
  (∀ id ∈ st.queue, id ∉ st.active) ∧
  (∀ id, id ∈ st.active ∨ id ∈ st.queue → (st.tasks.lookup id).isSome) ∧
  (∀ kv ∈ st.tasks, kv.2.status = .running → kv.1 ∈ st.active) ∧
  (st.tasks.map (·.1)).Nodup

/-! ## Runtime `createTask` and the single-task start path -/

/-- `AgentRuntime.createTask` up to the enqueue (lines 62-84): goal and
model-readiness validation, then the fresh pending task.  `isReady` is
`this.modelClient.isReady` (whether an API key was configured). -/
def createTask (isReady : Bool) (goal : String) (context : Option AgentTaskContext)
    (id : String) (now : Nat) : Except String AgentTask :=
  if goal = "" ∨ (jsTrim goal).length = 0 then
    .error "Goal is required to create a task."
  else if isReady = false then
    .error "Agent model is not initialised. Configure the AGENT_MODEL/API key first."
  else
    .ok
      { id := id
        goal := goal
        status := .pending
        createdAt := now
        updatedAt := now
        steps := []
        context := context }

/-- The runtime path for a task submitted to an idle runtime with free
capacity: `task-created` is emitted, `drainQueue` starts the task
immediately, and the orchestration runs to completion.  Events are in
emission order. -/
def createTaskAndRun (env : OrchestratorEnv) (isReady : Bool) (goal : String)
    (context : Option AgentTaskContext) (id : String) : Except String OrchState :=
  match createTask isReady goal context id 0 with
  | .error e => .error e
  | .ok task =>
    .ok (run env
      { task := task
        memory := AgentMemory.empty
        events := [.taskCreated id]
        now := 1
        nextId := 0 })

/-! ## JSON (`utils/json.ts` and the `JSON.parse` it relies on)

`parseJsonFromText` delegates to the host's `JSON.parse`; the verified
properties therefore need a model of `JSON.parse` itself.  `Json` is the
parse-tree: numbers are kept as their lexeme (the properties proved here
compare parses of identical character spans, so numeric value semantics
never matters), and the nested lists are mutual inductives to keep
recursion structural. -/

mutual
inductive Json where
  | null : Json
  | bool (b : Bool) : Json
  | num (lexeme : String) : Json
  | str (s : String) : Json
  | arr (elements : JsonList) : Json
  | obj (members : JsonMembers) : Json
inductive JsonList where
  | nil : JsonList
  | cons (hd : Json) (tl : JsonList) : JsonList
inductive JsonMembers where
  | nil : JsonMembers
  | cons (key : String) (value : Json) (tl : JsonMembers) : JsonMembers
end

/-- The character `U+007B` (left curly bracket). -/
def braceOpen : Char := Char.ofNat 123

/-- The character `U+007D` (right curly bracket). -/
def braceClose : Char := Char.ofNat 125

/-- The character `U+0060` (grave accent). -/
def graveAccent : Char := Char.ofNat 96

/-- Skip inter-token whitespace. -/
def skipWs (l : List Char) : List Char := l.dropWhile isJsonWs

/-- Expect the literal `lit` as a prefix, returning the rest. -/
def expectLit : List Char → List Char → Option (List Char)
  | [], l => some l
  | _ :: _, [] => none
  | c :: lit, d :: l => if d = c then expectLit lit l else none

/-- Hexadecimal digit value. -/
def hexVal (c : Char) : Option Nat :=
  if '0' ≤ c ∧ c ≤ '9' then some (c.toNat - 48)
  else if 'a' ≤ c ∧ c ≤ 'f' then some (c.toNat - 87)
  else if 'A' ≤ c ∧ c ≤ 'F' then some (c.toNat - 55)
  else none

/-- Parse a JSON string body (the part after the opening quote), returning
the decoded characters and the input after the closing quote.  Handles the
JSON escapes and rejects raw control characters, as `JSON.parse` does. -/
def parseStringBody : List Char → Option (List Char × List Char)
  | [] => none
  | c :: t =>
    if c = '"' then some ([], t)
    else if c = '\\' then
      match t with
      | [] => none
      | e :: t2 =>
        if e = 'u' then
          match t2 with
          | a :: b :: cc :: d :: t3 =>
            match hexVal a, hexVal b, hexVal cc, hexVal d with
            | some va, some vb, some vc, some vd =>
              match parseStringBody t3 with
              | some (s, r) =>
                some (Char.ofNat (va * 4096 + vb * 256 + vc * 16 + vd) :: s, r)
              | none => none
            | _, _, _, _ => none
          | _ => none
        else
          match
            (if e = '"' then some '"'
             else if e = '\\' then some '\\'
             else if e = '/' then some '/'
             else if e = 'n' then some '\n'
             else if e = 't' then some '\t'
             else if e = 'r' then some (Char.ofNat 13)
             else if e = 'b' then some (Char.ofNat 8)
             else if e = 'f' then some (Char.ofNat 12)
             else none) with
          | some decoded =>
            match parseStringBody t2 with
            | some (s, r) => some (decoded :: s, r)
            | none => none
          | none => none
    else if c.val < 32 then none
    else
      match parseStringBody t with
      | some (s, r) => some (c :: s, r)
      | none => none

/-- The integer part of a JSON number: `0` or a nonzero digit followed by
digits. -/
def parseIntPart : List Char → Option (List Char × List Char)
  | [] => none
  | c :: t =>
    if c = '0' then some ([c], t)
    else if c.isDigit then some (c :: t.takeWhile Char.isDigit, t.dropWhile Char.isDigit)
    else none

/-- The optional fraction part (`.` followed by at least one digit). -/
def parseFracPart (l : List Char) : Option (List Char × List Char) :=
  match l with
  | c :: t =>
    if c = '.' then
      match t.takeWhile Char.isDigit with
      | [] => none
      | ds => some (c :: ds, t.dropWhile Char.isDigit)
    else some ([], l)
  | [] => some ([], l)

/-- The optional exponent part (`e`/`E`, optional sign, at least one
digit). -/
def parseExpPart (l : List Char) : Option (List Char × List Char) :=
  match l with
  | c :: t =>
    if c = 'e' ∨ c = 'E' then
      let (sign, t2) :=
        match t with
        | s :: t2 => if s = '+' ∨ s = '-' then ([s], t2) else ([], t)
        | [] => ([], t)
      match t2.takeWhile Char.isDigit with
      | [] => none
      | ds => some (c :: sign ++ ds, t2.dropWhile Char.isDigit)
    else some ([], l)
  | [] => some ([], l)

/-- Scan a JSON number, returning its lexeme and the rest. -/
def parseNumber (l : List Char) : Option (List Char × List Char) :=
  let (sign, l1) := match l with | c :: t => if c = '-' then (['-'], t) else ([], l) | [] => ([], l)
  match parseIntPart l1 with
  | none => none
  | some (ip, l2) =>
    match parseFracPart l2 with
    | none => none
    | some (fp, l3) =>
      match parseExpPart l3 with
      | none => none
      | some (ep, l4) => some (sign ++ ip ++ fp ++ ep, l4)

mutual

/-- Recursive-descent model of `JSON.parse`'s value parser.  The input is
expected to start at a non-whitespace character; `fuel` bounds the nesting
recursion (every recursive call consumes at least one character first, so
`length + 1` fuel always suffices). -/
def parseValue : Nat → List Char → Option (Json × List Char)
  | 0, _ => none
  | _ + 1, [] => none
  | fuel + 1, c :: t =>
    if c = 'n' then
      match expectLit ['u', 'l', 'l'] t with
      | some r => some (.null, r)
      | none => none
    else if c = 't' then
      match expectLit ['r', 'u', 'e'] t with
      | some r => some (.bool true, r)
      | none => none
    else if c = 'f' then
      match expectLit ['a', 'l', 's', 'e'] t with
      | some r => some (.bool false, r)
      | none => none
    else if c = '"' then
      match parseStringBody t with
      | some (s, r) => some (.str (String.mk s), r)
      | none => none
    else if c = '-' ∨ c.isDigit then
      match parseNumber (c :: t) with
      | some (lex, r) => some (.num (String.mk lex), r)
      | none => none
    else if c = '[' then
      match skipWs t with
      | [] => none
      | c2 :: r =>
        if c2 = ']' then some (.arr .nil, r)
        else
          match parseElements fuel (c2 :: r) with
          | some (xs, r2) => some (.arr xs, r2)
          | none => none
    else if c = braceOpen then
      match skipWs t with
      | [] => none
      | c2 :: r =>
        if c2 = braceClose then some (.obj .nil, r)
        else
          match parseMembers fuel (c2 :: r) with
          | some (m, r2) => some (.obj m, r2)
          | none => none
    else none

/-- One or more comma-separated array elements followed by `]`. -/
def parseElements : Nat → List Char → Option (JsonList × List Char)
  | 0, _ => none
  | fuel + 1, l =>
    match parseValue fuel (skipWs l) with
    | none => none
    | some (v, r1) =>
      match skipWs r1 with
      | [] => none
      | c2 :: t2 =>
        if c2 = ',' then
          match parseElements fuel t2 with
          | some (tl, r2) => some (.cons v tl, r2)
          | none => none
        else if c2 = ']' then some (.cons v .nil, t2)
        else none

/-- One or more `"key": value` members followed by the closing brace. -/
def parseMembers : Nat → List Char → Option (JsonMembers × List Char)
  | 0, _ => none
  | fuel + 1, l =>
    match skipWs l with
    | [] => none
    | c :: t =>
      if c = '"' then
        match parseStringBody t with
        | none => none
        | some (key, r1) =>
          match skipWs r1 with
          | [] => none
          | c2 :: t2 =>
            if c2 = ':' then
              match parseValue fuel (skipWs t2) with
              | none => none
              | some (v, r2) =>
                match skipWs r2 with
                | [] => none
                | c3 :: t3 =>
                  if c3 = ',' then
                    match parseMembers fuel t3 with
                    | some (tl, r3) => some (.cons (String.mk key) v tl, r3)
                    | none => none
                  else if c3 = braceClose then some (.cons (String.mk key) v .nil, t3)
                  else none
            else none
      else none

end

/-- `JSON.parse` on a character list: parse one value surrounded by
whitespace, requiring the whole input to be consumed. -/
def jsonParseL (l : List Char) : Option Json :=
  match parseValue (l.length + 1) (skipWs l) with
  | some (v, r) => if skipWs r = [] then some v else none
  | none => none

/-- `JSON.parse` on a string; `none` models a thrown `SyntaxError`.  A
parsed JSON `null` is `some .null`: in JS that return value and the `null`
used below for failure are the same value, a distinction no verified
property depends on (they all involve objects or outright failure). -/
def jsonParse (s : String) : Option Json := jsonParseL s.data

/-- `tryParse` from `utils/json.ts`: `JSON.parse` with a thrown error
mapped to `undefined` (`none`). -/
def tryParse (payload : String) : Option Json := jsonParse payload

/-- `parseJsonFromText` from `utils/json.ts` lines 1-28. -/
def parseJsonFromText (text : String) : Option Json :=
  if text = "" then none
  else
    let trimmed := jsTrimL text.data
    match jsonParseL trimmed with
    | some direct => some direct
    | none =>
      match jsIndexOf trimmed braceOpen, jsLastIndexOf trimmed braceClose with
      | some firstBrace, some lastBrace =>
        if lastBrace ≤ firstBrace then none
        else
          match jsonParseL (jsSlice trimmed firstBrace (lastBrace + 1)) with
          | some embedded => some embedded
          | none => none
      | _, _ => none

/-! ## JSON rendering (canonical object text)

`Json.render` produces the canonical text of a value; it is the
specification-side inverse used to quantify over "texts of valid JSON
objects". -/

/-- JSON string escaping for one character (the canonical escape choices;
`\u` forms are only needed for control characters outside this set, which
`StringsRenderable` below excludes). -/
def escapeChar (c : Char) : List Char :=
  if c = '"' then ['\\', '"']
  else if c = '\\' then ['\\', '\\']
  else if c = '\n' then ['\\', 'n']
  else if c = '\t' then ['\\', 't']
  else if c.val = 13 then ['\\', 'r']
  else if c.val = 8 then ['\\', 'b']
  else if c.val = 12 then ['\\', 'f']
  else [c]

/-- JSON string escaping. -/
def escapeString : List Char → List Char
  | [] => []
  | c :: t => escapeChar c ++ escapeString t

mutual

/-- Canonical JSON text of a value (no inter-token whitespace); the scalar
keywords are spelled as string literals, whose `data` unfolds to the same
character lists definitionally. -/
def Json.render : Json → List Char
  | .null => "null".data
  | .bool b => (if b then "true" else "false").data
  | .num lexeme => lexeme.data
  | .str s => '"' :: (escapeString s.data ++ ['"'])
  | .arr xs => '[' :: (renderElemsFirst xs ++ [']'])
  | .obj m => braceOpen :: (renderMembersFirst m ++ [braceClose])

/-- Render array elements (first element without a leading comma). -/
def renderElemsFirst : JsonList → List Char
  | .nil => []
  | .cons v tl => v.render ++ renderElemsRest tl

/-- Render the remaining array elements, each with a leading comma. -/
def renderElemsRest : JsonList → List Char
  | .nil => []
  | .cons v tl => ',' :: (v.render ++ renderElemsRest tl)

/-- Render object members (first member without a leading comma). -/
def renderMembersFirst : JsonMembers → List Char
  | .nil => []
  | .cons k v tl =>
    '"' :: (escapeString k.data ++ '"' :: ':' :: (v.render ++ renderMembersRest tl))

/-- Render the remaining object members, each with a leading comma. -/
def renderMembersRest : JsonMembers → List Char
  | .nil => []
  | .cons k v tl =>
    ',' :: '"' :: (escapeString k.data ++ '"' :: ':' :: (v.render ++ renderMembersRest tl))

end

mutual

/-- Fuel bound: the nesting budget `parseValue` needs for a value. -/
def jsize : Json → Nat
  | .null => 1
  | .bool _ => 1
  | .num _ => 1
  | .str _ => 1
  | .arr xs => 1 + jsizeList xs
  | .obj m => 1 + jsizeMembers m

/-- Fuel bound for an element list. -/
def jsizeList : JsonList → Nat
  | .nil => 0
  | .cons v tl => 1 + jsize v + jsizeList tl

/-- Fuel bound for a member list. -/
def jsizeMembers : JsonMembers → Nat
  | .nil => 0
  | .cons _ v tl => 1 + jsize v + jsizeMembers tl

end

/-- Whether a value's strings (including object keys) avoid the control
characters that only a `\u` escape could represent; `Json.render` is exact
on such values. -/
def strOk (s : String) : Prop :=
  ∀ c ∈ s.data, 32 ≤ c.val ∨ c = '\n' ∨ c = '\t' ∨ c.val = 13 ∨ c.val = 8 ∨ c.val = 12

/-- No leading zero in a digit run (except the run `0` itself). -/
def noLeadingZero (ds : List Char) : Bool :=
  match ds with
  | [] => true
  | c :: t => if c = '0' then decide (t = []) else true

/-- A simple integer lexeme: an optional minus followed by a nonempty
digit run with no leading zero (except `0` itself).  The renderability
predicate restricts number nodes to this (JSON-valid) sublanguage. -/
def isSimpleNumLexeme (l : List Char) : Bool :=
  match l with
  | [] => false
  | c :: t =>
    if c = '-' then (decide (t ≠ [])) && t.all Char.isDigit && noLeadingZero t
    else (c :: t).all Char.isDigit && noLeadingZero (c :: t)

mutual

/-- All strings of the value avoid un-renderable control characters (see
`strOk`) and all number lexemes are simple integer lexemes. -/
def Renderable : Json → Prop
  | .null => True
  | .bool _ => True
  | .num lexeme => isSimpleNumLexeme lexeme.data = true
  | .str s => strOk s
  | .arr xs => RenderableList xs
  | .obj m => RenderableMembers m

/-- `Renderable` on element lists. -/
def RenderableList : JsonList → Prop
  | .nil => True
  | .cons v tl => Renderable v ∧ RenderableList tl

/-- `Renderable` on member lists. -/
def RenderableMembers : JsonMembers → Prop
  | .nil => True
  | .cons k v tl => strOk k ∧ Renderable v ∧ RenderableMembers tl

end

/-- No curly brace occurs among the characters ("brace-free prose"). -/
def braceFreeL (l : List Char) : Prop :=
  braceOpen ∉ l ∧ braceClose ∉ l

/-- `braceFreeL` on a string. -/
def braceFree (s : String) : Prop := braceFreeL s.data

/-- The character (if any) following a rendered value inside a JSON text:
nothing, a separator, or a closing bracket.  None of these can extend the
preceding token. -/
def stopper (rest : List Char) : Prop :=
  rest = [] ∨ ∃ c t, rest = c :: t ∧ (c = ',' ∨ c = ']' ∨ c = braceClose)

/-- The characters of the opening markdown fence ("三backtick json"
followed by a newline). -/
def fenceOpen : List Char :=
  [graveAccent, graveAccent, graveAccent, 'j', 's', 'o', 'n', '\n']

/-- The characters of the closing markdown fence. -/
def fenceClose : List Char :=
  ['\n', graveAccent, graveAccent, graveAccent]

/-! ## Concrete fixtures for the scenario properties -/

/-- A fresh task as `createTask` stores it, for driving `run` directly. -/
def freshTask (id goal : String) : AgentTask :=
  { id := id
    goal := goal
    status := .pending
    createdAt := 0
    updatedAt := 0
    steps := [] }

/-- An orchestration state at the moment `run` receives a fresh task. -/
def freshState (id goal : String) : OrchState :=
  { task := freshTask id goal
    memory := AgentMemory.empty
    events := []
    now := 1
    nextId := 0 }

/-- An executor stub whose observation is never reached on paths the
scenario properties exercise. -/
def idleExecutor : ExecPayload → Except String ActionExecutionResult :=
  fun _ => .ok { observation := { result := .error, message := "unused" } }

/-- Scenario `spec §8.2`: the planner answers
`{"thought":"click","action":{"type":"click","params":{}}}` every turn. -/
def clickEmptyPlannerEnv (maxSteps : Nat) : OrchestratorEnv :=
  { planner := fun _ =>
      .ok { thought := "click", action := some { type := "click", params := [] } }
    executor := idleExecutor
    maxSteps := maxSteps }

/-- Scenario `spec §8.1` planner: a valid `navigate` on the first turn, a
successful `finish` on the second. -/
def happyPlanner (input : PlanInput) : Except String AgentPlanOutput :=
  if input.stepCount = 0 then
    .ok { thought := "I will open the site"
          action := some
            { type := "navigate"
              params := [("url", .str "https://example.com")] } }
  else
    .ok { thought := "Done"
          finish := some { status := .success, summary := "Opened example.com" } }

/-- Scenario `spec §8.1` executor: `navigate` succeeds, not terminal. -/
def happyExecutor : ExecPayload → Except String ActionExecutionResult :=
  fun _ =>
    .ok { observation :=
            { result := .success
              message := "Navigated to https://example.com"
              data := some [("url", .str "https://example.com")] } }

/-- The happy-path environment. -/
def happyEnv (maxSteps : Nat) : OrchestratorEnv :=
  { planner := happyPlanner, executor := happyExecutor, maxSteps := maxSteps }

/-- An environment in which every iteration runs a valid non-terminal
action to completion (used to exercise budget exhaustion): the planner
always proposes `scroll down` and the executor always reports a
non-terminal success. -/
def scrollForeverEnv (maxSteps : Nat) : OrchestratorEnv :=
  { planner := fun _ =>
      .ok { thought := "scroll"
            action := some { type := "scroll", params := [("direction", .str "down")] } }
    executor := fun _ =>
      .ok { observation := { result := .success, message := "Scrolled down." } }
    maxSteps := maxSteps }

/-- A planner that always throws (e.g. an unparsable model response). -/
def errPlannerEnv (msg : String) (maxSteps : Nat) : OrchestratorEnv :=
  { planner := fun _ => .error msg, executor := idleExecutor, maxSteps := maxSteps }

/-- A planner that returns neither an action nor a finish directive. -/
def noActionPlannerEnv (maxSteps : Nat) : OrchestratorEnv :=
  { planner := fun _ => .ok { thought := "hmm" }, executor := idleExecutor
    maxSteps := maxSteps }

/-- A valid planner paired with an executor that always throws. -/
def throwingExecutorEnv (msg : String) (maxSteps : Nat) : OrchestratorEnv :=
  { planner := fun _ =>
      .ok { thought := "scroll"
            action := some { type := "scroll", params := [("direction", .str "down")] } }
    executor := fun _ => .error msg
    maxSteps := maxSteps }

/-- An environment whose every iteration continues to the next one. -/
def AlwaysContinues (env : OrchestratorEnv) : Prop :=
  ∀ st : OrchState, (runIteration env st).2 = true

/-- The memory produced by appending `entries` for `taskId`, in order. -/
def buildMemory (taskId : String) (entries : List MemoryEntry) : AgentMemory :=
  entries.foldl (fun m e => m.remember taskId e) AgentMemory.empty

/-- Safety config for the blocked-navigation scenario. -/
def blockedCfg : SafetyConfig :=
  { maxSteps := 8
    maxParallelTasks := 1
    maxWaitMs := 10000
    blockedOrigins := ["chrome:"]
    restrictedSelectors := [] }

/-- Browser world for the blocked-navigation scenario (its oracles are
never consulted on the exercised path). -/
def blockedWorld : BrowserWorld :=
  { loadURL := fun _ _ => .ok ()
    waitForSelector := fun _ _ _ => { found := true }
    handleClick := fun _ => .ok { observation := { result := .error, message := "unused" } }
    handleType := fun _ => .ok { observation := { result := .error, message := "unused" } }
    handleWait := fun _ => .ok { observation := { result := .error, message := "unused" } }
    handleScroll := fun _ => .ok { observation := { result := .error, message := "unused" } }
    handleExtract := fun _ => .ok { observation := { result := .error, message := "unused" } } }

/-- A window with one active tab. -/
def oneTabWindow : WindowModel :=
  { tabs := [], activeTab := some { id := "tab-1" } }

/-- The blocked `navigate` action of the scenario. -/
def blockedNavigateAction : AgentAction :=
  { type := "navigate", params := [("url", .str "chrome://settings")] }

/-- Planner for the blocked-navigation scenario: the blocked `navigate`,
then a successful `finish`. -/
def blockedNavPlanner (input : PlanInput) : Except String AgentPlanOutput :=
  if input.stepCount = 0 then
    .ok { thought := "open settings", action := some blockedNavigateAction }
  else
    .ok { thought := "give up"
          finish := some { status := .success, summary := "done" } }

/-- Orchestrator environment wiring `createAgentExecutor` over the blocked
scenario's config, world and window. -/
def blockedNavEnv (maxSteps : Nat) : OrchestratorEnv :=
  { planner := blockedNavPlanner
    executor := fun payload => .ok (createAgentExecutor blockedCfg blockedWorld oneTabWindow payload)
    maxSteps := maxSteps }


/-! # Theorems -/

/-! ## Tool registry (C1) -/

theorem foldl_issues_eq (schema : List (String × ParamRule))
    (params : List (String × ParamValue)) (ty : String) (acc : List String) :
    schema.foldl
      (fun acc kr =>
        if kr.2.required && (lookupParam params kr.1).isMissing
        then acc ++ [missingParamIssue kr.1 ty]
        else acc) acc
      = acc ++ (schema.filter
          (fun kr => kr.2.required && (lookupParam params kr.1).isMissing)).map
            (fun kr => missingParamIssue kr.1 ty) := by
  induction schema generalizing acc with
  | nil => simp
  | cons kr tl ih =>
    rw [List.foldl_cons, List.filter_cons]
    by_cases h : (kr.2.required && (lookupParam params kr.1).isMissing) = true
    · rw [if_pos h, if_pos h, ih, List.map_cons]
      simp
    · rw [if_neg h, if_neg h, ih]

theorem validateAction_of_getTool (a : AgentAction) (tool : AgentToolDefinition)
    (h : getTool a.type = some tool) :
    validateAction a =
      if missingRequired tool a.params = [] then { ok := true, issues := none }
      else { ok := false
             issues := some ((missingRequired tool a.params).map
               (fun k => missingParamIssue k a.type)) } := by
  unfold validateAction
  rw [h]
  have hf := foldl_issues_eq tool.schema a.params a.type []
  simp only [List.nil_append] at hf
  simp only [hf]
  unfold missingRequired
  rcases hfe : tool.schema.filter
      (fun kr => kr.2.required && (lookupParam a.params kr.1).isMissing) with _ | ⟨x, xs⟩
  · simp only [hfe]
    simp
  · simp only [hfe]
    simp [List.map_map, Function.comp]

theorem lookupParam_append_of_not_mem (params extra : List (String × ParamValue))
    (key : String) (h : ∀ kv ∈ extra, kv.1 ≠ key) :
    lookupParam (params ++ extra) key = lookupParam params key := by
  unfold lookupParam
  rw [List.lookup_append]
  have he : extra.lookup key = none := by
    rw [List.lookup_eq_none_iff]
    intro p hp
    exact bne_iff_ne.mpr (fun hc => h p hp (by rw [hc]))
  rw [he]
  cases params.lookup key <;> rfl

/-- C1: `ToolRegistry.validateAction` returns `ok=false` exactly when the
action's type is not one of the seven registered kinds or some parameter
marked `required` in that kind's schema is absent, `null` or `undefined`
in the params; in the failure case the issues list names each missing
required parameter; parameters whose keys are outside the schema never
change the verdict. -/
theorem validateAction_contract (a : AgentAction) :
    ((validateAction a).ok = false ↔
      getTool a.type = none ∨
        ∃ tool, getTool a.type = some tool ∧ missingRequired tool a.params ≠ [])
  ∧ (∀ tool, getTool a.type = some tool →
      ∀ key ∈ missingRequired tool a.params,
        missingParamIssue key a.type ∈ ((validateAction a).issues.getD []))
  ∧ (∀ extra : List (String × ParamValue),
      (∀ kv ∈ extra, ∀ tool, getTool a.type = some tool →
        ∀ kr ∈ tool.schema, kv.1 ≠ kr.1) →
      validateAction { type := a.type, params := a.params ++ extra } = validateAction a) := by
  refine ⟨?_, ?_, ?_⟩
  · cases h : getTool a.type with
    | none =>
      simp only [validateAction, h]
      simp
    | some tool =>
      rw [validateAction_of_getTool a tool h]
      by_cases hm : missingRequired tool a.params = []
      · rw [if_pos hm]
        simp [h, hm]
      · rw [if_neg hm]
        constructor
        · intro _
          exact Or.inr ⟨tool, rfl, hm⟩
        · intro _
          rfl
  · intro tool h key hkey
    rw [validateAction_of_getTool a tool h]
    have hne : missingRequired tool a.params ≠ [] := by
      intro hc
      rw [hc] at hkey
      exact List.not_mem_nil key hkey
    rw [if_neg hne]
    simpa using List.mem_map_of_mem (fun k => missingParamIssue k a.type) hkey
  · intro extra hextra
    cases h : getTool a.type with
    | none =>
      show validateAction { type := a.type, params := a.params ++ extra } = _
      unfold validateAction
      simp only [h]
    | some tool =>
      have h2 : getTool (AgentAction.mk a.type (a.params ++ extra)).type = some tool := h
      rw [validateAction_of_getTool _ tool h2, validateAction_of_getTool a tool h]
      have hmiss : missingRequired tool (a.params ++ extra) = missingRequired tool a.params := by
        unfold missingRequired
        congr 1
        apply List.filter_congr
        intro kr hkr
        rw [lookupParam_append_of_not_mem a.params extra kr.1
          (fun kv hkv => hextra kv hkv tool h kr hkr)]
      rw [hmiss]

/-- Witness for C1, at the `click` action with empty params and a
two-entry extra record. -/
theorem validateAction_contract_witness :
    (validateAction { type := "click", params := [] }).ok = false
  ∧ missingParamIssue "selector" "click" ∈
      ((validateAction { type := "click", params := [] }).issues.getD [])
  ∧ validateAction { type := "click"
                     params := [("selector", .str "#a"), ("novel", .num 3)] } =
      validateAction { type := "click", params := [("selector", .str "#a")] } := by
  have h1 := (validateAction_contract { type := "click", params := [] }).1
  have h2 := (validateAction_contract { type := "click", params := [] }).2.1
  have h3 := (validateAction_contract { type := "click", params := [("selector", .str "#a")] }).2.2
  refine ⟨?_, ?_, ?_⟩
  · exact h1.mpr (by decide)
  · exact h2 ((getTool "click").get (by decide)) (by decide) "selector" (by decide)
  · exact h3 [("novel", .num 3)] (by decide)

/-! ## Memory (C7) -/

theorem buildMemory_go (taskId : String) (entries : List MemoryEntry) (m : AgentMemory) :
    (entries.foldl (fun m e => m.remember taskId e) m) taskId = m taskId ++ entries := by
  induction entries generalizing m with
  | nil => simp
  | cons e tl ih =>
    rw [List.foldl_cons, ih]
    simp [AgentMemory.remember]

theorem buildMemory_apply (taskId : String) (entries : List MemoryEntry) :
    buildMemory taskId entries taskId = entries := by
  unfold buildMemory
  rw [buildMemory_go]
  rfl

/-- C7: `getRecent` on a memory holding `n` appended entries returns the
last `min(k, n)` entries in insertion order for `k > 0` and all entries
for `k ≤ 0`; with no intervening writes two calls agree (the model is
pure, so the second call is literally the same term). -/
theorem memory_getRecent_spec (taskId : String) (entries : List MemoryEntry) (k : Int) :
    (0 < k →
      (buildMemory taskId entries).getRecent taskId k =
        entries.drop (entries.length - min k.toNat entries.length))
  ∧ (k ≤ 0 → (buildMemory taskId entries).getRecent taskId k = entries)
  ∧ (buildMemory taskId entries).getRecent taskId k =
      (buildMemory taskId entries).getRecent taskId k := by
  have hb := buildMemory_apply taskId entries
  refine ⟨?_, ?_, rfl⟩
  · intro hk
    unfold AgentMemory.getRecent
    simp only [hb]
    by_cases hc : k ≤ 0 ∨ (entries.length : Int) ≤ k
    · rw [if_pos hc]
      have hlen : entries.length ≤ k.toNat := by omega
      have : min k.toNat entries.length = entries.length := by omega
      rw [this]
      simp
    · rw [if_neg hc]
      have : min k.toNat entries.length = k.toNat := by omega
      rw [this]
  · intro hk
    unfold AgentMemory.getRecent
    simp only [hb]
    rw [if_pos (Or.inl hk)]

/-- Witness for C7 at three concrete entries and `k = 2`, `k = -1`. -/
theorem memory_getRecent_spec_witness :
    (buildMemory "t" [{ type := .thought, content := "a", timestamp := 0 },
                      { type := .action, content := "b", timestamp := 1 },
                      { type := .observation, content := "c", timestamp := 2 }]).getRecent "t" 2 =
      [{ type := .action, content := "b", timestamp := 1 },
       { type := .observation, content := "c", timestamp := 2 }]
  ∧ (buildMemory "t" [{ type := .thought, content := "a", timestamp := 0 }]).getRecent "t" (-1) =
      [{ type := .thought, content := "a", timestamp := 0 }] := by
  constructor
  · rw [(memory_getRecent_spec "t" _ 2).1 (by decide)]
    rfl
  · exact (memory_getRecent_spec "t" _ (-1)).2.1 (by decide)

/-! ## Orchestrator structure lemmas -/

theorem set_append_length (l : List α) (a b : α) : (l ++ [a]).set l.length b = l ++ [b] := by
  induction l with
  | nil => rfl
  | cons x xs ih => simp [ih]

theorem planStep_task (env : OrchestratorEnv) (st : OrchState) :
    (planStep env st).1.task = st.task := by
  unfold planStep
  dsimp only
  split <;> rfl

theorem applyCatch_task (st : OrchState) (msg : String) :
    (applyCatch st msg).task =
      { st.task with lastError := some msg, status := .failed, updatedAt := st.now + 1 } := by
  rfl

theorem completeFromFinish_steps (st : OrchState) (summary : String) (finish : FinishDirective) :
    (completeFromFinish st summary finish).task.steps = st.task.steps := by
  unfold completeFromFinish finishTask
  cases finish.status <;> rfl

theorem completeFromFinish_id (st : OrchState) (summary : String) (finish : FinishDirective) :
    (completeFromFinish st summary finish).task.id = st.task.id := by
  unfold completeFromFinish finishTask
  cases finish.status <;> rfl

theorem completeFromFinish_goal (st : OrchState) (summary : String) (finish : FinishDirective) :
    (completeFromFinish st summary finish).task.goal = st.task.goal := by
  unfold completeFromFinish finishTask
  cases finish.status <;> rfl

theorem completeFromFinish_status (st : OrchState) (summary : String) (finish : FinishDirective) :
    (completeFromFinish st summary finish).task.status = .succeeded ∨
    (completeFromFinish st summary finish).task.status = .failed := by
  unfold completeFromFinish finishTask
  cases finish.status
  · exact Or.inl rfl
  · exact Or.inr rfl


theorem createStep_fst_action (st : OrchState) (plan : AgentPlanOutput) :
    (createStep st plan).1.action = plan.action := rfl

theorem createStep_fst_status (st : OrchState) (plan : AgentPlanOutput) :
    (createStep st plan).1.status = .running := rfl

theorem createStep_fst_observation (st : OrchState) (plan : AgentPlanOutput) :
    (createStep st plan).1.observation = none := rfl

theorem createStep_fst_index (st : OrchState) (plan : AgentPlanOutput) :
    (createStep st plan).1.index = st.task.steps.length := rfl

theorem createStep_snd_steps (st : OrchState) (plan : AgentPlanOutput) :
    (createStep st plan).2.task.steps = st.task.steps ++ [(createStep st plan).1] := rfl

theorem createStep_snd_id (st : OrchState) (plan : AgentPlanOutput) :
    (createStep st plan).2.task.id = st.task.id := rfl

theorem createStep_snd_goal (st : OrchState) (plan : AgentPlanOutput) :
    (createStep st plan).2.task.goal = st.task.goal := rfl

theorem createStep_snd_status (st : OrchState) (plan : AgentPlanOutput) :
    (createStep st plan).2.task.status = st.task.status := rfl

theorem executeStep_fst_task (env : OrchestratorEnv) (st : OrchState) (step : AgentStep)
    (a : AgentAction) : (executeStep env st step a).1.task = st.task := rfl

theorem finaliseStep_steps (st : OrchState) (step : AgentStep) (obs : AgentObservation) :
    (finaliseStep st step obs).task.steps =
      st.task.steps.set step.index
        { step with
          status := if obs.result = .success then .succeeded else .failed
          observation := some obs
          updatedAt := st.now } := rfl

theorem finaliseStep_id (st : OrchState) (step : AgentStep) (obs : AgentObservation) :
    (finaliseStep st step obs).task.id = st.task.id := rfl

theorem finaliseStep_goal (st : OrchState) (step : AgentStep) (obs : AgentObservation) :
    (finaliseStep st step obs).task.goal = st.task.goal := rfl

theorem finaliseStep_status (st : OrchState) (step : AgentStep) (obs : AgentObservation) :
    (finaliseStep st step obs).task.status = st.task.status := rfl

theorem finishTask_id (st : OrchState) (summary : String) :
    (finishTask st summary).task.id = st.task.id := rfl

theorem finishTask_goal (st : OrchState) (summary : String) :
    (finishTask st summary).task.goal = st.task.goal := rfl

theorem finishTask_steps (st : OrchState) (summary : String) :
    (finishTask st summary).task.steps = st.task.steps := rfl

theorem finishTask_status (st : OrchState) (summary : String) :
    (finishTask st summary).task.status = .succeeded := rfl

theorem tryIteration_spec (env : OrchestratorEnv) (st : OrchState) :
    ∀ stA out, tryIteration env st = (stA, out) →
      stA.task.id = st.task.id ∧ stA.task.goal = st.task.goal ∧
      (stA.task.steps = st.task.steps ∨
        ∃ s, ((s.status = .succeeded ∨ s.status = .failed) → s.observation.isSome) ∧
             (∃ a, s.action = some a ∧ (validateAction a).ok = true) ∧
             stA.task.steps = st.task.steps ++ [s]) ∧
      (out = .next → stA.task.steps.length = st.task.steps.length + 1 ∧
        stA.task.status = st.task.status) ∧
      (out = .returned → stA.task.status = .succeeded ∨ stA.task.status = .failed) := by
  intro stA out h
  revert h
  unfold tryIteration
  dsimp only
  split
  case h_1 st1 msg heq =>
    have hplan : st1.task = st.task := by
      have := planStep_task env st
      rw [heq] at this
      exact this
    intro h
    injection h with h1 h2
    subst h1
    subst h2
    refine ⟨by rw [hplan], by rw [hplan], Or.inl (by rw [hplan]), ?_, ?_⟩
    · intro hc
      cases hc
    · intro hc
      cases hc
  case h_2 st1 plan heq =>
    have hplan : st1.task = st.task := by
      have := planStep_task env st
      rw [heq] at this
      exact this
    set stc := (match plan.caution with
      | some caution => st1.rememberEntry MemoryEntryType.thought ("Safety note: " ++ caution)
      | none => st1) with hstc
    have hctask : stc.task = st.task := by
      rw [hstc]
      cases plan.caution
      · exact hplan
      · exact hplan
    split
    case h_1 finish hfin =>
      intro h
      injection h with h1 h2
      subst h1
      subst h2
      refine ⟨?_, ?_, Or.inl ?_, ?_, ?_⟩
      · rw [completeFromFinish_id, hctask]
      · rw [completeFromFinish_goal, hctask]
      · rw [completeFromFinish_steps, hctask]
      · intro hc
        cases hc
      · intro _
        exact completeFromFinish_status stc finish.summary finish
    case h_2 hfin =>
      split
      case h_1 hact =>
        intro h
        injection h with h1 h2
        subst h1
        subst h2
        refine ⟨by rw [hctask], by rw [hctask], Or.inl (by rw [hctask]), ?_, ?_⟩
        · intro hc
          cases hc
        · intro hc
          cases hc
      case h_2 action hact =>
        split
        case isTrue hv =>
          intro h
          injection h with h1 h2
          subst h1
          subst h2
          refine ⟨by rw [hctask], by rw [hctask], Or.inl (by rw [hctask]), ?_, ?_⟩
          · intro hc
            cases hc
          · intro hc
            cases hc
        case isFalse hv =>
          have hok : (validateAction action).ok = true := by
            revert hv
            cases (validateAction action).ok <;> simp
          have hgood : ((createStep stc plan).1.status = .succeeded ∨
              (createStep stc plan).1.status = .failed) →
              ((createStep stc plan).1.observation).isSome := by
            rw [createStep_fst_status]
            intro hc
            rcases hc with hc | hc <;> exact absurd hc (by decide)
          have hact2 : (createStep stc plan).1.action = some action := by
            rw [createStep_fst_action, hact]
          split
          case h_1 st4 msg heq2 =>
            intro h
            injection h with h1 h2
            subst h1
            subst h2
            have htask4 : st4.task = (createStep stc plan).2.task := by
              have := executeStep_fst_task env (createStep stc plan).2 (createStep stc plan).1 action
              rw [heq2] at this
              exact this
            refine ⟨?_, ?_, Or.inr ⟨(createStep stc plan).1, hgood, ⟨action, hact2, hok⟩, ?_⟩, ?_, ?_⟩
            · rw [htask4, createStep_snd_id, hctask]
            · rw [htask4, createStep_snd_goal, hctask]
            · rw [htask4, createStep_snd_steps, hctask]
            · intro hc
              cases hc
            · intro hc
              cases hc
          case h_2 st4 execution heq2 =>
            have htask4 : st4.task = (createStep stc plan).2.task := by
              have := executeStep_fst_task env (createStep stc plan).2 (createStep stc plan).1 action
              rw [heq2] at this
              exact this
            have hlen : (createStep stc plan).1.index = st.task.steps.length := by
              rw [createStep_fst_index, hctask]
            have hfsteps : ∀ obs now2,
                ((createStep stc plan).2.task.steps.set (createStep stc plan).1.index
                  { (createStep stc plan).1 with
                    status := if obs.result = .success then StepStatus.succeeded else .failed
                    observation := some obs
                    updatedAt := now2 }) = st.task.steps ++
                  [{ (createStep stc plan).1 with
                     status := if obs.result = .success then StepStatus.succeeded else .failed
                     observation := some obs
                     updatedAt := now2 }] := by
              intro obs now2
              rw [createStep_snd_steps, hctask, hlen]
              exact set_append_length _ _ _
            have hgood2 : ∀ obs now2,
                (({ (createStep stc plan).1 with
                    status := if obs.result = .success then StepStatus.succeeded else .failed
                    observation := some obs
                    updatedAt := now2 } : AgentStep).status = .succeeded ∨
                 ({ (createStep stc plan).1 with
                    status := if obs.result = .success then StepStatus.succeeded else .failed
                    observation := some obs
                    updatedAt := now2 } : AgentStep).status = .failed) →
                (({ (createStep stc plan).1 with
                    status := if obs.result = .success then StepStatus.succeeded else .failed
                    observation := some obs
                    updatedAt := now2 } : AgentStep).observation).isSome := by
              intro obs now2 _
              rfl
            split
            case isTrue hterm =>
              split
              case h_1 s hsum =>
                intro h
                injection h with h1 h2
                subst h1
                subst h2
                refine ⟨?_, ?_, Or.inr ⟨_, hgood2 execution.observation st4.now,
                  ⟨action, hact2, hok⟩, ?_⟩, ?_, ?_⟩
                · rw [finishTask_id, finaliseStep_id, htask4, createStep_snd_id, hctask]
                · rw [finishTask_goal, finaliseStep_goal, htask4, createStep_snd_goal, hctask]
                · rw [finishTask_steps, finaliseStep_steps, htask4]
                  exact hfsteps execution.observation st4.now
                · intro hc
                  cases hc
                · intro _
                  exact Or.inl (finishTask_status _ s)
              case h_2 hsum =>
                intro h
                injection h with h1 h2
                subst h1
                subst h2
                refine ⟨?_, ?_, Or.inr ⟨_, hgood2 execution.observation st4.now,
                  ⟨action, hact2, hok⟩, ?_⟩, ?_, ?_⟩
                · rw [finishTask_id]
                  show (finaliseStep st4 (createStep stc plan).1 execution.observation).task.id = _
                  rw [finaliseStep_id, htask4, createStep_snd_id, hctask]
                · rw [finishTask_goal]
                  show (finaliseStep st4 (createStep stc plan).1 execution.observation).task.goal = _
                  rw [finaliseStep_goal, htask4, createStep_snd_goal, hctask]
                · rw [finishTask_steps]
                  show (finaliseStep st4 (createStep stc plan).1 execution.observation).task.steps = _
                  rw [finaliseStep_steps, htask4]
                  exact hfsteps execution.observation st4.now
                · intro hc
                  cases hc
                · intro _
                  exact Or.inl (finishTask_status _ _)
            case isFalse hterm =>
              intro h
              injection h with h1 h2
              subst h1
              subst h2
              have hsteps : (finaliseStep st4 (createStep stc plan).1
                  execution.observation).task.steps = st.task.steps ++
                    [{ (createStep stc plan).1 with
                       status := if execution.observation.result = .success
                         then StepStatus.succeeded else .failed
                       observation := some execution.observation
                       updatedAt := st4.now }] := by
                rw [finaliseStep_steps, htask4]
                exact hfsteps execution.observation st4.now
              refine ⟨?_, ?_, Or.inr ⟨_, hgood2 execution.observation st4.now,
                ⟨action, hact2, hok⟩, hsteps⟩, ?_, ?_⟩
              · rw [finaliseStep_id, htask4, createStep_snd_id, hctask]
              · rw [finaliseStep_goal, htask4, createStep_snd_goal, hctask]
              · intro _
                constructor
                · rw [hsteps]
                  simp
                · rw [finaliseStep_status, htask4, createStep_snd_status, hctask]
              · intro hc
                cases hc

theorem applyCatch_id (st : OrchState) (msg : String) :
    (applyCatch st msg).task.id = st.task.id := rfl

theorem applyCatch_goal (st : OrchState) (msg : String) :
    (applyCatch st msg).task.goal = st.task.goal := rfl

theorem applyCatch_steps (st : OrchState) (msg : String) :
    (applyCatch st msg).task.steps = st.task.steps := rfl

theorem applyCatch_status (st : OrchState) (msg : String) :
    (applyCatch st msg).task.status = .failed := rfl

theorem runIteration_spec (env : OrchestratorEnv) (st : OrchState) :
    ∀ stA cont, runIteration env st = (stA, cont) →
      stA.task.id = st.task.id ∧ stA.task.goal = st.task.goal ∧
      (stA.task.steps = st.task.steps ∨
        ∃ s, ((s.status = .succeeded ∨ s.status = .failed) → s.observation.isSome) ∧
             (∃ a, s.action = some a ∧ (validateAction a).ok = true) ∧
             stA.task.steps = st.task.steps ++ [s]) ∧
      (cont = true → stA.task.steps.length = st.task.steps.length + 1 ∧
        stA.task.status = st.task.status) ∧
      (cont = false → stA.task.status = .succeeded ∨ stA.task.status = .failed) := by
  intro stA cont h
  revert h
  unfold runIteration
  rcases htry : tryIteration env st with ⟨st1, o⟩
  have hs := tryIteration_spec env st st1 o htry
  cases o with
  | thrown msg =>
    intro h
    injection h with h1 h2
    subst h1
    subst h2
    refine ⟨?_, ?_, ?_, ?_, ?_⟩
    · rw [applyCatch_id]
      exact hs.1
    · rw [applyCatch_goal]
      exact hs.2.1
    · rw [applyCatch_steps]
      exact hs.2.2.1
    · intro hc
      cases hc
    · intro _
      exact Or.inr (applyCatch_status st1 msg)
  | returned =>
    intro h
    injection h with h1 h2
    subst h1
    subst h2
    refine ⟨hs.1, hs.2.1, hs.2.2.1, ?_, ?_⟩
    · intro hc
      cases hc
    · intro _
      exact hs.2.2.2.2 rfl
  | next =>
    intro h
    injection h with h1 h2
    subst h1
    subst h2
    refine ⟨hs.1, hs.2.1, hs.2.2.1, ?_, ?_⟩
    · intro _
      exact hs.2.2.2.1 rfl
    · intro hc
      cases hc

theorem runLoop_succ (env : OrchestratorEnv) (st : OrchState) (n : Nat) :
    runLoop env st (n + 1) =
      match runIteration env st with
      | (st2, false) => st2
      | (st2, true) => runLoop env st2 n := rfl

theorem runLoop_zero (env : OrchestratorEnv) (st : OrchState) :
    runLoop env st 0 =
      completeFromFinish
        { st with
          memory := (st.memory.summarise st.task
            { result := .error, message := "Max step count reached without completion." } st.now).2
          now := st.now + 1 }
        (st.memory.summarise st.task
          { result := .error, message := "Max step count reached without completion." } st.now).1
        { status := .failed
          summary := (st.memory.summarise st.task
            { result := .error, message := "Max step count reached without completion." } st.now).1 } := rfl

theorem runLoop_id_goal (env : OrchestratorEnv) :
    ∀ fuel (st : OrchState),
      (runLoop env st fuel).task.id = st.task.id ∧
      (runLoop env st fuel).task.goal = st.task.goal := by
  intro fuel
  induction fuel with
  | zero =>
    intro st
    rw [runLoop_zero]
    exact ⟨completeFromFinish_id _ _ _, completeFromFinish_goal _ _ _⟩
  | succ n ih =>
    intro st
    rw [runLoop_succ]
    rcases hr : runIteration env st with ⟨st2, cont⟩
    have hs := runIteration_spec env st st2 cont hr
    cases cont
    · exact ⟨hs.1, hs.2.1⟩
    · exact ⟨(ih st2).1.trans hs.1, (ih st2).2.trans hs.2.1⟩

theorem runLoop_steps_le (env : OrchestratorEnv) :
    ∀ fuel (st : OrchState),
      (runLoop env st fuel).task.steps.length ≤ st.task.steps.length + fuel := by
  intro fuel
  induction fuel with
  | zero =>
    intro st
    rw [runLoop_zero, completeFromFinish_steps]
    dsimp only
    omega
  | succ n ih =>
    intro st
    rw [runLoop_succ]
    rcases hr : runIteration env st with ⟨st2, cont⟩
    have hs := runIteration_spec env st st2 cont hr
    cases cont
    · dsimp only
      rcases hs.2.2.1 with h | ⟨s, _, _, h⟩
      · rw [h]
        omega
      · rw [h]
        simp
    · dsimp only
      have hle := ih st2
      rcases hs.2.2.1 with h | ⟨s, _, _, h⟩
      · rw [h] at hle
        omega
      · rw [h] at hle
        simp at hle
        omega

theorem runLoop_status_terminal (env : OrchestratorEnv) :
    ∀ fuel (st : OrchState),
      (runLoop env st fuel).task.status = .succeeded ∨
      (runLoop env st fuel).task.status = .failed := by
  intro fuel
  induction fuel with
  | zero =>
    intro st
    rw [runLoop_zero]
    exact completeFromFinish_status _ _ _
  | succ n ih =>
    intro st
    rw [runLoop_succ]
    rcases hr : runIteration env st with ⟨st2, cont⟩
    have hs := runIteration_spec env st st2 cont hr
    cases cont
    · exact hs.2.2.2.2 rfl
    · exact ih st2

/-- `AgentOrchestrator.run` always leaves the task in a terminal status. -/
theorem run_status_terminal (env : OrchestratorEnv) (st : OrchState) :
    (run env st).task.status = .succeeded ∨ (run env st).task.status = .failed :=
  runLoop_status_terminal env env.maxSteps _

theorem runLoop_steps_good (env : OrchestratorEnv) :
    ∀ fuel (st : OrchState),
      (∀ s ∈ st.task.steps,
        ((s.status = .succeeded ∨ s.status = .failed) → s.observation.isSome) ∧
        (∃ a, s.action = some a ∧ (validateAction a).ok = true)) →
      ∀ s ∈ (runLoop env st fuel).task.steps,
        ((s.status = .succeeded ∨ s.status = .failed) → s.observation.isSome) ∧
        (∃ a, s.action = some a ∧ (validateAction a).ok = true) := by
  intro fuel
  induction fuel with
  | zero =>
    intro st h
    rw [runLoop_zero, completeFromFinish_steps]
    exact h
  | succ n ih =>
    intro st h
    rw [runLoop_succ]
    rcases hr : runIteration env st with ⟨st2, cont⟩
    have hs := runIteration_spec env st st2 cont hr
    have h2 : ∀ s ∈ st2.task.steps,
        ((s.status = .succeeded ∨ s.status = .failed) → s.observation.isSome) ∧
        (∃ a, s.action = some a ∧ (validateAction a).ok = true) := by
      rcases hs.2.2.1 with hsteps | ⟨s0, hgood, hval, hsteps⟩
      · rw [hsteps]
        exact h
      · rw [hsteps]
        intro s hmem
        rcases List.mem_append.mp hmem with hm | hm
        · exact h s hm
        · rcases List.mem_singleton.mp hm with rfl
          exact ⟨hgood, hval⟩
    cases cont
    · exact h2
    · exact ih st2 h2

/-! ## Step budget (C4) -/

theorem intercalate_three (a b c : String) :
    String.intercalate "\n" [a, b, c] = a ++ "\n" ++ b ++ "\n" ++ c := by
  simp [String.intercalate, String.intercalate.go]

theorem summarise_fst_noData (m : AgentMemory) (task : AgentTask) (obs : AgentObservation)
    (now : Nat) (h : obs.data = none) :
    (m.summarise task obs now).1 =
      "Goal: " ++ task.goal ++ "\n" ++ "Result: " ++ obs.result.upper ++ "\n" ++ obs.message := by
  unfold AgentMemory.summarise
  rw [h]
  dsimp only
  rw [intercalate_three]
  apply String.ext
  simp [String.data_append, List.append_assoc]

theorem run_eq (env : OrchestratorEnv) (st : OrchState) :
    run env st =
      runLoop env
        (({ st with task := { st.task with status := .running } }).emit
          (.taskStarted st.task.id)) env.maxSteps := rfl

theorem runLoop_exhaust (env : OrchestratorEnv) (h : AlwaysContinues env) :
    ∀ fuel (st : OrchState),
      (runLoop env st fuel).task.status = .failed ∧
      (runLoop env st fuel).task.steps.length = st.task.steps.length + fuel ∧
      ∃ pre, (runLoop env st fuel).task.summary =
        some (pre ++ "Max step count reached without completion.") := by
  intro fuel
  induction fuel with
  | zero =>
    intro st
    rw [runLoop_zero]
    refine ⟨rfl, ?_, ?_⟩
    · rw [completeFromFinish_steps]
      dsimp only
      omega
    · refine ⟨"Goal: " ++ st.task.goal ++ "\n" ++ "Result: " ++ "ERROR" ++ "\n", ?_⟩
      show some _ = _
      rw [summarise_fst_noData _ _ _ _ rfl]
      rfl
  | succ n ih =>
    intro st
    rw [runLoop_succ]
    rcases hr : runIteration env st with ⟨st2, cont⟩
    have hcont : cont = true := by
      have := h st
      rw [hr] at this
      exact this
    subst hcont
    dsimp only
    have hs := runIteration_spec env st st2 true hr
    have hlen := (hs.2.2.2.1 rfl).1
    refine ⟨(ih st2).1, ?_, (ih st2).2.2⟩
    rw [(ih st2).2.1, hlen]
    omega

/-- C4: every task driven from a fresh state ends with
`steps.length ≤ maxSteps`; and when every one of the `maxSteps` iterations
completes without a finish or terminal observation, the task ends `failed`
with exactly `maxSteps` steps and a summary ending in
`"Max step count reached without completion."`. -/
theorem step_budget_spec (env : OrchestratorEnv) (st : OrchState) :
    (st.task.steps = [] → (run env st).task.steps.length ≤ env.maxSteps)
  ∧ (AlwaysContinues env → st.task.steps = [] →
      (run env st).task.status = .failed ∧
      (run env st).task.steps.length = env.maxSteps ∧
      ∃ pre, (run env st).task.summary =
        some (pre ++ "Max step count reached without completion.")) := by
  have hsteps : (({ st with task := { st.task with status := .running } }).emit
      (.taskStarted st.task.id)).task.steps = st.task.steps := rfl
  constructor
  · intro h0
    rw [run_eq]
    have hle := runLoop_steps_le env env.maxSteps
      (({ st with task := { st.task with status := .running } }).emit (.taskStarted st.task.id))
    rw [hsteps, h0] at hle
    simpa using hle
  · intro hA h0
    rw [run_eq]
    have hex := runLoop_exhaust env hA env.maxSteps
      (({ st with task := { st.task with status := .running } }).emit (.taskStarted st.task.id))
    rw [hsteps, h0] at hex
    simpa using hex

/-- Witness for C4 at the always-scrolling environment with `maxSteps = 3`. -/
theorem step_budget_spec_witness :
    (run (scrollForeverEnv 3) (freshState "t" "g")).task.steps.length ≤ 3
  ∧ (run (scrollForeverEnv 3) (freshState "t" "g")).task.status = .failed
  ∧ (run (scrollForeverEnv 3) (freshState "t" "g")).task.steps.length = 3 := by
  have hA : AlwaysContinues (scrollForeverEnv 3) := fun st => rfl
  have h := step_budget_spec (scrollForeverEnv 3) (freshState "t" "g")
  exact ⟨h.1 rfl, (h.2 hA rfl).1, (h.2 hA rfl).2.1⟩

/-! ## Step finalisation and observation attachment (C8) -/

/-- C8: steps are created `running`; `finaliseStep` rewrites the step with
status `succeeded` exactly when the observation's result is `success`
(otherwise `failed`) and attaches the observation; consequently every step
of a completed run that is `succeeded` or `failed` carries an
observation. -/
theorem step_finalisation_spec :
    (∀ (st : OrchState) (plan : AgentPlanOutput), (createStep st plan).1.status = .running)
  ∧ (∀ (st : OrchState) (step : AgentStep) (obs : AgentObservation),
      (finaliseStep st step obs).task.steps =
        st.task.steps.set step.index
          { step with
            status := if obs.result = .success then .succeeded else .failed
            observation := some obs
            updatedAt := st.now })
  ∧ (∀ (env : OrchestratorEnv) (st : OrchState), st.task.steps = [] →
      ∀ s ∈ (run env st).task.steps,
        (s.status = .succeeded ∨ s.status = .failed) → s.observation.isSome) := by
  refine ⟨fun st plan => createStep_fst_status st plan,
          fun st step obs => finaliseStep_steps st step obs, ?_⟩
  intro env st h0 s hs
  rw [run_eq] at hs
  have hgood := runLoop_steps_good env env.maxSteps
    (({ st with task := { st.task with status := .running } }).emit (.taskStarted st.task.id))
    (by
      have hsteps : (({ st with task := { st.task with status := .running } }).emit
          (.taskStarted st.task.id)).task.steps = st.task.steps := rfl
      rw [hsteps, h0]
      intro s hmem
      exact absurd hmem (List.not_mem_nil s))
  exact (hgood s hs).1

/-- Witness for C8: the happy-path run's only step satisfies the terminal
implies-observation property. -/
theorem step_finalisation_spec_witness :
    (createStep (freshState "t" "g") { thought := "x" }).1.status = .running
  ∧ ((run (happyEnv 2) (freshState "t" "Open example.com")).task.steps.all
      (fun s => decide ((s.status = .succeeded ∨ s.status = .failed) →
        s.observation.isSome = true))) = true := by
  constructor
  · exact step_finalisation_spec.1 (freshState "t" "g") { thought := "x" }
  · have h := step_finalisation_spec.2.2 (happyEnv 2) (freshState "t" "Open example.com") rfl
    exact List.all_eq_true.mpr (fun s hs => decide_eq_true (h s hs))

/-! ## Invalid plans create no steps (C3) -/

/-- C3: when the planner proposes `click` with empty params, the run ends
`failed` with `lastError` containing
`Missing required parameter "selector"`, no step is created, `task-failed`
is emitted and `step-created` is not; and in general every step of any run
carries an action that passed registry validation. -/
theorem invalid_action_spec :
    (∀ m : Nat,
      (run (clickEmptyPlannerEnv (m + 1)) (freshState "t" "g")).task.status = .failed
      ∧ (run (clickEmptyPlannerEnv (m + 1)) (freshState "t" "g")).task.lastError =
          some ("Invalid action returned: " ++
            "Missing required parameter \"selector\"" ++ " for click.")
      ∧ (run (clickEmptyPlannerEnv (m + 1)) (freshState "t" "g")).task.steps = []
      ∧ (run (clickEmptyPlannerEnv (m + 1)) (freshState "t" "g")).events.map AgentEvent.name =
          ["task-started", "planning-started", "planning-finished", "task-error", "task-failed"]
      ∧ "task-failed" ∈
          (run (clickEmptyPlannerEnv (m + 1)) (freshState "t" "g")).events.map AgentEvent.name
      ∧ "step-created" ∉
          (run (clickEmptyPlannerEnv (m + 1)) (freshState "t" "g")).events.map AgentEvent.name)
  ∧ (∀ (env : OrchestratorEnv) (st : OrchState), st.task.steps = [] →
      ∀ s ∈ (run env st).task.steps,
        ∃ a, s.action = some a ∧ (validateAction a).ok = true) := by
  constructor
  · intro m
    have hev : (run (clickEmptyPlannerEnv (m + 1)) (freshState "t" "g")).events.map
        AgentEvent.name =
        ["task-started", "planning-started", "planning-finished", "task-error", "task-failed"] :=
      rfl
    refine ⟨rfl, by rfl, rfl, hev, ?_, ?_⟩
    · rw [hev]
      decide
    · rw [hev]
      decide
  · intro env st h0 s hs
    rw [run_eq] at hs
    have hgood := runLoop_steps_good env env.maxSteps
      (({ st with task := { st.task with status := .running } }).emit (.taskStarted st.task.id))
      (by
        have hsteps : (({ st with task := { st.task with status := .running } }).emit
            (.taskStarted st.task.id)).task.steps = st.task.steps := rfl
        rw [hsteps, h0]
        intro s hmem
        exact absurd hmem (List.not_mem_nil s))
    exact (hgood s hs).2

/-- Witness for C3 at `maxSteps = 1` and the happy-path run. -/
theorem invalid_action_spec_witness :
    (run (clickEmptyPlannerEnv 1) (freshState "t" "g")).task.status = .failed
  ∧ (run (clickEmptyPlannerEnv 1) (freshState "t" "g")).task.steps = []
  ∧ ((run (happyEnv 2) (freshState "t" "Open example.com")).task.steps.all
      (fun s => decide (∃ a, s.action = some a ∧ (validateAction a).ok = true))) = true := by
  refine ⟨((invalid_action_spec.1) 0).1, ((invalid_action_spec.1) 0).2.2.1, ?_⟩
  have h := invalid_action_spec.2 (happyEnv 2) (freshState "t" "Open example.com") rfl
  exact List.all_eq_true.mpr (fun s hs => decide_eq_true (h s hs))

/-! ## Happy path event order (C9) -/

/-- C9: on the single-step happy path (valid `navigate` with a successful
non-terminal observation, then a successful `finish`), the task ends
`succeeded` with the finish summary, exactly one step, that step
`succeeded`, and the events in exactly the claimed order. -/
theorem happy_path_spec (m : Nat) :
    ∃ stF, createTaskAndRun (happyEnv (m + 2)) true "Open example.com" none "task-1" = .ok stF
      ∧ stF.task.status = .succeeded
      ∧ stF.task.summary = some "Opened example.com"
      ∧ stF.task.steps.length = 1
      ∧ stF.task.steps.map AgentStep.status = [.succeeded]
      ∧ stF.events.map AgentEvent.name =
          ["task-created", "task-started", "planning-started", "planning-finished",
           "step-created", "step-executing", "step-updated", "planning-started",
           "planning-finished", "task-completed"] :=
  ⟨_, rfl, rfl, rfl, rfl, rfl, rfl⟩

/-! ## Uniform in-loop error path (C10) -/

theorem error_path_uniform (env : OrchestratorEnv) (st st1 : OrchState) (msg : String)
    (htry : tryIteration env st = (st1, .thrown msg)) :
    runIteration env st = (applyCatch st1 msg, false) ∧
    (applyCatch st1 msg).task.status = .failed ∧
    (applyCatch st1 msg).task.lastError = some msg ∧
    (applyCatch st1 msg).events =
      st1.events ++ [.taskError st1.task.id msg, .taskFailed st1.task.id msg] ∧
    (applyCatch st1 msg).memory st1.task.id =
      st1.memory st1.task.id ++
        [{ type := .observation, content := "Error: " ++ msg, timestamp := st1.now }] := by
  refine ⟨?_, rfl, rfl, ?_, ?_⟩
  · unfold runIteration
    rw [htry]
  · simp [applyCatch, OrchState.emit, OrchState.rememberEntry]
  · simp [applyCatch, OrchState.emit, OrchState.rememberEntry, AgentMemory.remember]

theorem thrown_of_planner_error (env : OrchestratorEnv) (st : OrchState) (msg : String)
    (hp : ∀ input, env.planner input = .error msg) :
    (tryIteration env st).2 = .thrown msg := by
  unfold tryIteration planStep
  dsimp only
  rw [hp]

theorem thrown_of_no_action_no_finish (env : OrchestratorEnv) (st : OrchState)
    (plan : AgentPlanOutput) (hp : ∀ input, env.planner input = .ok plan)
    (hact : plan.action = none) (hfin : plan.finish = none) :
    (tryIteration env st).2 =
      .thrown "Agent returned neither an action nor a finish directive." := by
  unfold tryIteration planStep
  dsimp only
  rw [hp]
  dsimp only
  rw [hfin]
  dsimp only
  rw [hact]

theorem thrown_of_invalid_action (env : OrchestratorEnv) (st : OrchState)
    (plan : AgentPlanOutput) (a : AgentAction) (issues : List String)
    (hp : ∀ input, env.planner input = .ok plan)
    (hact : plan.action = some a) (hfin : plan.finish = none)
    (hv : validateAction a = { ok := false, issues := some issues }) :
    (tryIteration env st).2 =
      .thrown ("Invalid action returned: " ++ String.intercalate ", " issues) := by
  unfold tryIteration planStep
  dsimp only
  rw [hp]
  dsimp only
  rw [hfin]
  dsimp only
  rw [hact]
  dsimp only
  rw [hv]
  simp

theorem thrown_of_executor_throw (env : OrchestratorEnv) (st : OrchState)
    (plan : AgentPlanOutput) (a : AgentAction) (msg : String)
    (hp : ∀ input, env.planner input = .ok plan)
    (hact : plan.action = some a) (hfin : plan.finish = none)
    (hv : (validateAction a).ok = true)
    (he : ∀ payload, env.executor payload = .error msg) :
    (tryIteration env st).2 = .thrown msg := by
  unfold tryIteration planStep executeStep
  dsimp only
  rw [hp]
  dsimp only
  rw [hfin]
  dsimp only
  rw [hact]
  dsimp only
  rw [hv]
  simp only [Bool.true_eq_false, if_false]
  rw [he]

/-- C10: every error raised inside the loop — a planner throw, a plan with
neither action nor finish, an action-validation failure, or an executor
throw — is funnelled through the single `catch` block: `lastError` is set,
an `"Error: "`-prefixed observation memory entry is appended, `task-error`
then `task-failed` are emitted, and the task status becomes `failed`. -/
theorem error_path_spec :
    (∀ (env : OrchestratorEnv) (st st1 : OrchState) (msg : String),
      tryIteration env st = (st1, .thrown msg) →
        runIteration env st = (applyCatch st1 msg, false) ∧
        (applyCatch st1 msg).task.status = .failed ∧
        (applyCatch st1 msg).task.lastError = some msg ∧
        (applyCatch st1 msg).events =
          st1.events ++ [.taskError st1.task.id msg, .taskFailed st1.task.id msg] ∧
        (applyCatch st1 msg).memory st1.task.id =
          st1.memory st1.task.id ++
            [{ type := .observation, content := "Error: " ++ msg, timestamp := st1.now }])
  ∧ (∀ (env : OrchestratorEnv) (st : OrchState) (msg : String),
      (∀ input, env.planner input = .error msg) →
      (tryIteration env st).2 = .thrown msg)
  ∧ (∀ (env : OrchestratorEnv) (st : OrchState) (plan : AgentPlanOutput),
      (∀ input, env.planner input = .ok plan) →
      plan.action = none → plan.finish = none →
      (tryIteration env st).2 =
        .thrown "Agent returned neither an action nor a finish directive.")
  ∧ (∀ (env : OrchestratorEnv) (st : OrchState) (plan : AgentPlanOutput)
      (a : AgentAction) (issues : List String),
      (∀ input, env.planner input = .ok plan) →
      plan.action = some a → plan.finish = none →
      validateAction a = { ok := false, issues := some issues } →
      (tryIteration env st).2 =
        .thrown ("Invalid action returned: " ++ String.intercalate ", " issues))
  ∧ (∀ (env : OrchestratorEnv) (st : OrchState) (plan : AgentPlanOutput)
      (a : AgentAction) (msg : String),
      (∀ input, env.planner input = .ok plan) →
      plan.action = some a → plan.finish = none →
      (validateAction a).ok = true →
      (∀ payload, env.executor payload = .error msg) →
      (tryIteration env st).2 = .thrown msg) :=
  ⟨fun env st st1 msg htry => error_path_uniform env st st1 msg htry,
   fun env st msg hp => thrown_of_planner_error env st msg hp,
   fun env st plan hp hact hfin => thrown_of_no_action_no_finish env st plan hp hact hfin,
   fun env st plan a issues hp hact hfin hv =>
     thrown_of_invalid_action env st plan a issues hp hact hfin hv,
   fun env st plan a msg hp hact hfin hv he =>
     thrown_of_executor_throw env st plan a msg hp hact hfin hv he⟩

/-- Witness for C10 across all four error kinds at concrete environments. -/
theorem error_path_spec_witness :
    (runIteration (errPlannerEnv "boom" 1) (freshState "t" "g")).1.task.status = .failed
  ∧ (runIteration (errPlannerEnv "boom" 1) (freshState "t" "g")).1.task.lastError = some "boom"
  ∧ (tryIteration (errPlannerEnv "boom" 1) (freshState "t" "g")).2 = .thrown "boom"
  ∧ (tryIteration (noActionPlannerEnv 1) (freshState "t" "g")).2 =
      .thrown "Agent returned neither an action nor a finish directive."
  ∧ (tryIteration (clickEmptyPlannerEnv 1) (freshState "t" "g")).2 =
      .thrown ("Invalid action returned: " ++ String.intercalate ", "
        ["Missing required parameter \"selector\" for click."])
  ∧ (tryIteration (throwingExecutorEnv "exec boom" 1) (freshState "t" "g")).2 =
      .thrown "exec boom" := by
  have h1 := error_path_spec.1 (errPlannerEnv "boom" 1) (freshState "t" "g")
    (tryIteration (errPlannerEnv "boom" 1) (freshState "t" "g")).1 "boom" rfl
  refine ⟨?_, ?_, ?_, ?_, ?_, ?_⟩
  · rw [h1.1]
    exact h1.2.1
  · rw [h1.1]
    exact h1.2.2.1
  · exact error_path_spec.2.1 (errPlannerEnv "boom" 1) (freshState "t" "g") "boom"
      (fun _ => rfl)
  · exact error_path_spec.2.2.1 (noActionPlannerEnv 1) (freshState "t" "g")
      { thought := "hmm" } (fun _ => rfl) rfl rfl
  · exact error_path_spec.2.2.2.1 (clickEmptyPlannerEnv 1) (freshState "t" "g")
      { thought := "click", action := some { type := "click", params := [] } }
      { type := "click", params := [] }
      ["Missing required parameter \"selector\" for click."]
      (fun _ => rfl) rfl rfl (by decide)
  · exact error_path_spec.2.2.2.2 (throwingExecutorEnv "exec boom" 1) (freshState "t" "g")
      { thought := "scroll"
        action := some { type := "scroll", params := [("direction", .str "down")] } }
      { type := "scroll", params := [("direction", .str "down")] } "exec boom"
      (fun _ => rfl) rfl rfl (by decide) (fun _ => rfl)

theorem next_of_tryIteration_next (env : OrchestratorEnv) (st : OrchState)
    (h : (tryIteration env st).2 = .next) : (runIteration env st).2 = true := by
  unfold runIteration
  rcases htry : tryIteration env st with ⟨st1, o⟩
  rw [htry] at h
  cases o with
  | thrown m => cases h
  | returned => cases h
  | next => rfl

theorem continue_of_nonterminal_observation (env : OrchestratorEnv) (st : OrchState)
    (plan : AgentPlanOutput) (a : AgentAction) (r : ActionExecutionResult)
    (hp : ∀ input, env.planner input = .ok plan)
    (hact : plan.action = some a) (hfin : plan.finish = none)
    (hv : (validateAction a).ok = true)
    (he : ∀ payload, env.executor payload = .ok r)
    (hterm : r.didTerminate.getD false = false) :
    (runIteration env st).2 = true := by
  apply next_of_tryIteration_next
  unfold tryIteration planStep executeStep
  dsimp only
  rw [hp]
  dsimp only
  rw [hfin]
  dsimp only
  rw [hact]
  dsimp only
  rw [hv]
  simp only [Bool.true_eq_false, if_false]
  rw [he]
  dsimp only
  rw [hterm]
  simp

theorem handleNavigate_blocked (cfg : SafetyConfig) (world : BrowserWorld)
    (window : WindowModel) (params : List (String × ParamValue)) (url : String)
    (hurl : lookupParam params "url" = .str url) (hne : url ≠ "")
    (htab : (resolveTab window (lookupParam params "tabId")).isSome = true)
    (hblocked : (cfg.blockedOrigins.any fun p => jsStartsWith url p) = true) :
    handleNavigate cfg world window params =
      .error ("Navigation to URLs starting with \"" ++ urlSchemePrefix url ++
        "\" is blocked by safety policy.") := by
  unfold handleNavigate
  rcases Option.isSome_iff_exists.mp htab with ⟨tab, hres⟩
  rw [hres]
  dsimp only
  rw [hurl]
  dsimp only
  rw [if_neg hne, if_pos hblocked]

/-- C2 (amended): a `navigate` to a blocked URL makes `handleNavigate`
throw, but `createAgentExecutor`'s `catch` converts the throw into an
error observation whose `didTerminate` is *unset*; and an executor result
whose observation is non-terminal does not end the loop — the task does
not transition to `failed` on that iteration. -/
theorem blocked_navigate_spec :
    (∀ (cfg : SafetyConfig) (world : BrowserWorld) (window : WindowModel)
       (task : AgentTask) (step : AgentStep) (params : List (String × ParamValue))
       (url : String),
      lookupParam params "url" = .str url → url ≠ "" →
      (resolveTab window (lookupParam params "tabId")).isSome = true →
      (cfg.blockedOrigins.any fun p => jsStartsWith url p) = true →
      createAgentExecutor cfg world window
        { task := task, step := step, action := { type := "navigate", params := params } } =
        { observation :=
            { result := .error
              message := "Navigation to URLs starting with \"" ++ urlSchemePrefix url ++
                "\" is blocked by safety policy." }
          didTerminate := none
          summary := none })
  ∧ (∀ (env : OrchestratorEnv) (st : OrchState) (plan : AgentPlanOutput)
       (a : AgentAction) (r : ActionExecutionResult),
      (∀ input, env.planner input = .ok plan) →
      plan.action = some a → plan.finish = none →
      (validateAction a).ok = true →
      (∀ payload, env.executor payload = .ok r) →
      r.didTerminate.getD false = false →
      (runIteration env st).2 = true) := by
  constructor
  · intro cfg world window task step params url hurl hne htab hblocked
    show (match handleNavigate cfg world window params with
      | .ok result => result
      | .error e => { observation := { result := .error, message := e } }) = _
    rw [handleNavigate_blocked cfg world window params url hurl hne htab hblocked]
  · exact fun env st plan a r hp hact hfin hv he hterm =>
      continue_of_nonterminal_observation env st plan a r hp hact hfin hv he hterm

/-- C2 (counterexample to the claim as stated): for the blocked
`chrome://settings` navigation the executor's result has `didTerminate`
unset — not `true` — and the surrounding task run ends `succeeded`, not
`failed`. -/
theorem blocked_navigate_counterexample :
    (createAgentExecutor blockedCfg blockedWorld oneTabWindow
      { task := freshTask "t" "g"
        step := { id := 0, index := 0, status := .running, createdAt := 0, updatedAt := 0 }
        action := blockedNavigateAction }).didTerminate = none
  ∧ (createAgentExecutor blockedCfg blockedWorld oneTabWindow
      { task := freshTask "t" "g"
        step := { id := 0, index := 0, status := .running, createdAt := 0, updatedAt := 0 }
        action := blockedNavigateAction }).didTerminate ≠ some true
  ∧ (createAgentExecutor blockedCfg blockedWorld oneTabWindow
      { task := freshTask "t" "g"
        step := { id := 0, index := 0, status := .running, createdAt := 0, updatedAt := 0 }
        action := blockedNavigateAction }).observation =
      { result := .error
        message := "Navigation to URLs starting with \"chrome:\" is blocked by safety policy." }
  ∧ (run (blockedNavEnv 2) (freshState "t" "g")).task.status = .succeeded
  ∧ (run (blockedNavEnv 2) (freshState "t" "g")).task.status ≠ .failed := by
  refine ⟨rfl, by decide, by decide, rfl, by decide⟩

/-- Witness for C2's amended theorem at concrete inputs. -/
theorem blocked_navigate_spec_witness :
    createAgentExecutor blockedCfg blockedWorld oneTabWindow
      { task := freshTask "t" "g"
        step := { id := 0, index := 0, status := .running, createdAt := 0, updatedAt := 0 }
        action := { type := "navigate", params := [("url", .str "chrome://settings")] } } =
      { observation :=
          { result := .error
            message := "Navigation to URLs starting with \"chrome:\" is blocked by safety policy." }
        didTerminate := none
        summary := none }
  ∧ (runIteration
      { planner := fun _ =>
          .ok { thought := "open settings", action := some blockedNavigateAction }
        executor := fun _ => .ok { observation := { result := .error, message := "blocked" } }
        maxSteps := 2 }
      (freshState "t" "g")).2 = true := by
  constructor
  · have h := blocked_navigate_spec.1 blockedCfg blockedWorld oneTabWindow (freshTask "t" "g")
      { id := 0, index := 0, status := .running, createdAt := 0, updatedAt := 0 }
      [("url", .str "chrome://settings")] "chrome://settings" rfl (by decide) rfl (by decide)
    rw [h]
    rfl
  · exact blocked_navigate_spec.2 _ (freshState "t" "g")
      { thought := "open settings", action := some blockedNavigateAction }
      blockedNavigateAction { observation := { result := .error, message := "blocked" } }
      (fun _ => rfl) rfl rfl (by decide) (fun _ => rfl) rfl

/-! ## Scheduler (C5) -/

theorem updateTask_map_fst (tasks : List (String × AgentTask)) (id : String)
    (f : AgentTask → AgentTask) :
    (updateTask tasks id f).map (·.1) = tasks.map (·.1) := by
  unfold updateTask
  rw [List.map_map]
  apply List.map_congr_left
  intro kv _
  by_cases h : kv.1 = id <;> simp [h]

theorem lookup_updateTask_self (tasks : List (String × AgentTask)) (id : String)
    (f : AgentTask → AgentTask) :
    (updateTask tasks id f).lookup id = (tasks.lookup id).map f := by
  induction tasks with
  | nil => rfl
  | cons kv tl ih =>
    rcases kv with ⟨k, v⟩
    unfold updateTask at ih ⊢
    simp only [List.map_cons]
    by_cases h : k = id
    · subst h
      simp [List.lookup_cons]
    · have hbeq : (id == k) = false := beq_eq_false_iff_ne.mpr (Ne.symm h)
      simp [List.lookup_cons, h, hbeq, ih]

theorem lookup_updateTask_ne (tasks : List (String × AgentTask)) (id x : String)
    (f : AgentTask → AgentTask) (h : x ≠ id) :
    (updateTask tasks id f).lookup x = tasks.lookup x := by
  induction tasks with
  | nil => rfl
  | cons kv tl ih =>
    rcases kv with ⟨k, v⟩
    unfold updateTask at ih ⊢
    simp only [List.map_cons]
    by_cases hk : k = id
    · subst hk
      have hbeq : (x == k) = false := beq_eq_false_iff_ne.mpr h
      simp [List.lookup_cons, hbeq, ih]
    · by_cases hx : x = k
      · subst hx
        simp [List.lookup_cons, hk]
      · have hbeq : (x == k) = false := beq_eq_false_iff_ne.mpr hx
        simp [List.lookup_cons, hk, hbeq, ih]

theorem mem_updateTask (tasks : List (String × AgentTask)) (id : String)
    (f : AgentTask → AgentTask) (kv : String × AgentTask)
    (h : kv ∈ updateTask tasks id f) :
    ∃ kv0 ∈ tasks, kv.1 = kv0.1 ∧
      ((kv.1 ≠ id ∧ kv.2 = kv0.2) ∨ (kv.1 = id ∧ kv.2 = f kv0.2)) := by
  unfold updateTask at h
  rcases List.mem_map.mp h with ⟨kv0, hmem, heq⟩
  by_cases hk : kv0.1 = id
  · rw [if_pos hk] at heq
    exact ⟨kv0, hmem, by rw [← heq], Or.inr ⟨by rw [← heq, hk], by rw [← heq]⟩⟩
  · rw [if_neg hk] at heq
    refine ⟨kv0, hmem, by rw [← heq], Or.inl ⟨?_, by rw [← heq]⟩⟩
    rw [← heq]
    exact hk

theorem lookup_updateTask_isSome (tasks : List (String × AgentTask)) (id x : String)
    (f : AgentTask → AgentTask) :
    ((updateTask tasks id f).lookup x).isSome = (tasks.lookup x).isSome := by
  by_cases h : x = id
  · subst h
    rw [lookup_updateTask_self]
    cases tasks.lookup x <;> rfl
  · rw [lookup_updateTask_ne tasks id x f h]

theorem drainAux_succ (limit n : Nat) (st : RuntimeState) :
    drainAux limit (n + 1) st =
      match st.queue with
      | [] => st
      | id :: rest =>
        if st.active.length < limit then
          drainAux limit n
            { st with
              queue := rest
              active := st.active ++ [id]
              started := st.started ++ [id]
              tasks := markRunning st.tasks id }
        else st := rfl

theorem drainAux_active_le (limit : Nat) :
    ∀ fuel (st : RuntimeState), st.active.length ≤ limit →
      (drainAux limit fuel st).active.length ≤ limit := by
  intro fuel
  induction fuel with
  | zero => exact fun st h => h
  | succ n ih =>
    intro st h
    rw [drainAux_succ]
    rcases hq : st.queue with _ | ⟨id, rest⟩
    · exact h
    · dsimp only
      by_cases hlt : st.active.length < limit
      · rw [if_pos hlt]
        apply ih
        simpa using hlt
      · rw [if_neg hlt]
        exact h

theorem drainAux_started_queue (limit : Nat) :
    ∀ fuel (st : RuntimeState),
      (drainAux limit fuel st).started ++ (drainAux limit fuel st).queue =
        st.started ++ st.queue := by
  intro fuel
  induction fuel with
  | zero => exact fun st => rfl
  | succ n ih =>
    intro st
    rw [drainAux_succ]
    rcases hq : st.queue with _ | ⟨id, rest⟩
    · rw [hq]
    · dsimp only
      by_cases hlt : st.active.length < limit
      · rw [if_pos hlt, ih]
        simp
      · rw [if_neg hlt, hq]

theorem drainAux_events (limit : Nat) :
    ∀ fuel (st : RuntimeState), (drainAux limit fuel st).events = st.events := by
  intro fuel
  induction fuel with
  | zero => exact fun st => rfl
  | succ n ih =>
    intro st
    rw [drainAux_succ]
    rcases hq : st.queue with _ | ⟨id, rest⟩
    · rfl
    · dsimp only
      by_cases hlt : st.active.length < limit
      · rw [if_pos hlt, ih]
      · rw [if_neg hlt]

theorem drainAux_tasks_keys (limit : Nat) :
    ∀ fuel (st : RuntimeState),
      (drainAux limit fuel st).tasks.map (·.1) = st.tasks.map (·.1) := by
  intro fuel
  induction fuel with
  | zero => exact fun st => rfl
  | succ n ih =>
    intro st
    rw [drainAux_succ]
    rcases hq : st.queue with _ | ⟨id, rest⟩
    · rfl
    · dsimp only
      by_cases hlt : st.active.length < limit
      · rw [if_pos hlt, ih]
        exact updateTask_map_fst st.tasks id (fun t => { t with status := .running })
      · rw [if_neg hlt]

theorem drainAux_active_sub (limit : Nat) :
    ∀ fuel (st : RuntimeState) (x : String),
      x ∈ (drainAux limit fuel st).active → x ∈ st.active ∨ x ∈ st.queue := by
  intro fuel
  induction fuel with
  | zero => exact fun st x h => Or.inl h
  | succ n ih =>
    intro st x
    rw [drainAux_succ]
    rcases hq : st.queue with _ | ⟨id, rest⟩
    · exact fun h => Or.inl h
    · dsimp only
      by_cases hlt : st.active.length < limit
      · rw [if_pos hlt]
        intro h
        rcases ih _ x h with h2 | h2
        · rcases List.mem_append.mp h2 with h3 | h3
          · exact Or.inl h3
          · rcases List.mem_singleton.mp h3 with rfl
            exact Or.inr (List.mem_cons_self _ _)
        · exact Or.inr (List.mem_cons_of_mem _ h2)
      · rw [if_neg hlt]
        exact fun h => Or.inl h

theorem drainAux_started_mono (limit : Nat) :
    ∀ fuel (st : RuntimeState) (x : String),
      x ∈ st.started → x ∈ (drainAux limit fuel st).started := by
  intro fuel
  induction fuel with
  | zero => exact fun st x h => h
  | succ n ih =>
    intro st x h
    rw [drainAux_succ]
    rcases hq : st.queue with _ | ⟨id, rest⟩
    · exact h
    · dsimp only
      by_cases hlt : st.active.length < limit
      · rw [if_pos hlt]
        exact ih _ x (List.mem_append.mpr (Or.inl h))
      · rw [if_neg hlt]
        exact h

theorem drainAux_lookup_of_not_queue (limit : Nat) :
    ∀ fuel (st : RuntimeState) (x : String), x ∉ st.queue →
      (drainAux limit fuel st).tasks.lookup x = st.tasks.lookup x := by
  intro fuel
  induction fuel with
  | zero => exact fun st x _ => rfl
  | succ n ih =>
    intro st x hx
    rw [drainAux_succ]
    rcases hq : st.queue with _ | ⟨id, rest⟩
    · rfl
    · dsimp only
      rw [hq] at hx
      by_cases hlt : st.active.length < limit
      · rw [if_pos hlt, ih]
        · show (markRunning st.tasks id).lookup x = st.tasks.lookup x
          rw [markRunning]
          exact lookup_updateTask_ne st.tasks id x _
            (fun hc => hx (hc ▸ List.mem_cons_self _ _))
        · exact fun hc => hx (List.mem_cons_of_mem _ hc)
      · rw [if_neg hlt]

theorem drainAux_inv (limit : Nat) :
    ∀ fuel (st : RuntimeState), RuntimeInv limit st →
      RuntimeInv limit (drainAux limit fuel st) := by
  intro fuel
  induction fuel with
  | zero => exact fun st h => h
  | succ n ih =>
    intro st h
    rw [drainAux_succ]
    rcases hq : st.queue with _ | ⟨id, rest⟩
    · exact h
    · dsimp only
      by_cases hlt : st.active.length < limit
      · rw [if_pos hlt]
        apply ih
        obtain ⟨h1, h2, h3, h4, h5, h6, h7⟩ := h
        rw [hq] at h3 h4
        have hidq : id ∈ st.queue := by rw [hq]; exact List.mem_cons_self _ _
        have hidna : id ∉ st.active := h4 id (List.mem_cons_self _ _)
        have hrest_nodup : rest.Nodup := (List.nodup_cons.mp h3).2
        have hid_rest : id ∉ rest := (List.nodup_cons.mp h3).1
        refine ⟨?_, ?_, ?_, ?_, ?_, ?_, ?_⟩
        · show (st.active ++ [id]).length ≤ limit
          simp only [List.length_append, List.length_singleton]
          omega
        · show (st.active ++ [id]).Nodup
          rw [List.nodup_append]
          exact ⟨h2, List.nodup_singleton id,
            fun x hx hxid => hidna ((List.mem_singleton.mp hxid) ▸ hx)⟩
        · exact hrest_nodup
        · show ∀ x ∈ rest, x ∉ st.active ++ [id]
          intro x hx
          rw [List.mem_append, List.mem_singleton]
          rintro (hc | rfl)
          · exact h4 x (List.mem_cons_of_mem _ hx) hc
          · exact hid_rest hx
        · show ∀ x, x ∈ st.active ++ [id] ∨ x ∈ rest →
            (((markRunning st.tasks id).lookup x).isSome = true)
          intro x hx
          rw [markRunning, lookup_updateTask_isSome]
          apply h5
          rcases hx with hx | hx
          · rcases List.mem_append.mp hx with hx | hx
            · exact Or.inl hx
            · rcases List.mem_singleton.mp hx with rfl
              exact Or.inr hidq
          · exact Or.inr (by rw [hq]; exact List.mem_cons_of_mem _ hx)
        · show ∀ kv ∈ markRunning st.tasks id, kv.2.status = .running →
            kv.1 ∈ st.active ++ [id]
          intro kv hkv hrun
          rcases mem_updateTask st.tasks id _ kv hkv with ⟨kv0, hmem, hfst, hcase⟩
          rcases hcase with ⟨hne, hsnd⟩ | ⟨hid, _⟩
          · have : kv0.2.status = .running := by rw [← hsnd]; exact hrun
            rw [List.mem_append, hfst]
            exact Or.inl (h6 kv0 hmem this)
          · rw [List.mem_append, List.mem_singleton]
            exact Or.inr hid
        · show ((markRunning st.tasks id).map (·.1)).Nodup
          rw [markRunning, updateTask_map_fst]
          exact h7
      · rw [if_neg hlt]
        exact h

theorem lookup_isSome_of_mem_keys (tasks : List (String × AgentTask)) (id : String)
    (h : ∃ kv ∈ tasks, kv.1 = id) : (tasks.lookup id).isSome = true := by
  rcases h with ⟨kv, hmem, hfst⟩
  rw [List.lookup_isSome_iff]
  exact ⟨kv, hmem, by simp [hfst]⟩

theorem runtimeStep_inv (limit : Nat) (st : RuntimeState) (cmd : RuntimeCmd)
    (h : RuntimeInv limit st) (hc : CmdWF st cmd) :
    RuntimeInv limit (runtimeStep limit st cmd) := by
  obtain ⟨h1, h2, h3, h4, h5, h6, h7⟩ := h
  cases cmd with
  | enqueue task =>
    obtain ⟨hfresh, hpend⟩ := hc
    apply drainAux_inv
    have hninq : task.id ∉ st.queue := by
      intro hc2
      have := h5 task.id (Or.inr hc2)
      rw [hfresh] at this
      cases this
    have hnina : task.id ∉ st.active := by
      intro hc2
      have := h5 task.id (Or.inl hc2)
      rw [hfresh] at this
      cases this
    have hnkeys : ∀ kv ∈ st.tasks, kv.1 ≠ task.id := by
      intro kv hkv hceq
      have := lookup_isSome_of_mem_keys st.tasks task.id ⟨kv, hkv, hceq⟩
      rw [hfresh] at this
      cases this
    refine ⟨h1, h2, ?_, ?_, ?_, ?_, ?_⟩
    · show (st.queue ++ [task.id]).Nodup
      rw [List.nodup_append]
      exact ⟨h3, List.nodup_singleton _,
        fun x hx hxid => hninq ((List.mem_singleton.mp hxid) ▸ hx)⟩
    · show ∀ x ∈ st.queue ++ [task.id], x ∉ st.active
      intro x hx
      rcases List.mem_append.mp hx with hx | hx
      · exact h4 x hx
      · rcases List.mem_singleton.mp hx with rfl
        exact hnina
    · show ∀ x, x ∈ st.active ∨ x ∈ st.queue ++ [task.id] →
        (((st.tasks ++ [(task.id, task)]).lookup x).isSome = true)
      intro x hx
      rw [List.lookup_append]
      by_cases hxid : x = task.id
      · subst hxid
        rw [hfresh]
        simp [List.lookup_cons]
      · have hold : (st.tasks.lookup x).isSome = true := by
          apply h5
          rcases hx with hx | hx
          · exact Or.inl hx
          · rcases List.mem_append.mp hx with hx | hx
            · exact Or.inr hx
            · exact absurd (List.mem_singleton.mp hx) hxid
        rcases ho : st.tasks.lookup x with _ | t
        · rw [ho] at hold
          cases hold
        · simp
    · show ∀ kv ∈ st.tasks ++ [(task.id, task)], kv.2.status = .running → kv.1 ∈ st.active
      intro kv hkv hrun
      rcases List.mem_append.mp hkv with hkv | hkv
      · exact h6 kv hkv hrun
      · rcases List.mem_singleton.mp hkv with rfl
        rw [hpend] at hrun
        cases hrun
    · show ((st.tasks ++ [(task.id, task)]).map (·.1)).Nodup
      rw [List.map_append]
      rw [List.nodup_append]
      refine ⟨h7, by simp, ?_⟩
      intro x hx hxid
      simp only [List.map_cons, List.map_nil, List.mem_singleton] at hxid
      rcases List.mem_map.mp hx with ⟨kv, hkv, rfl⟩
      exact hnkeys kv hkv hxid
  | completeOk id final =>
    obtain ⟨hact, hninq, hnrun, _⟩ := hc
    apply drainAux_inv
    refine ⟨?_, List.Nodup.erase id h2, h3, ?_, ?_, ?_, ?_⟩
    · show (st.active.erase id).length ≤ limit
      exact le_trans (List.Sublist.length_le (List.erase_sublist id st.active)) h1
    · show ∀ x ∈ st.queue, x ∉ st.active.erase id
      exact fun x hx hc2 => h4 x hx (List.mem_of_mem_erase hc2)
    · show ∀ x, x ∈ st.active.erase id ∨ x ∈ st.queue →
        (((updateTask st.tasks id fun _ => final).lookup x).isSome = true)
      intro x hx
      rw [lookup_updateTask_isSome]
      apply h5
      rcases hx with hx | hx
      · exact Or.inl (List.mem_of_mem_erase hx)
      · exact Or.inr hx
    · show ∀ kv ∈ updateTask st.tasks id fun _ => final, kv.2.status = .running →
        kv.1 ∈ st.active.erase id
      intro kv hkv hrun
      rcases mem_updateTask st.tasks id _ kv hkv with ⟨kv0, hmem, hfst, hcase⟩
      rcases hcase with ⟨hne, hsnd⟩ | ⟨hid, hsnd⟩
      · have : kv0.2.status = .running := by rw [← hsnd]; exact hrun
        rw [hfst] at hne ⊢
        exact (List.mem_erase_of_ne hne).mpr (h6 kv0 hmem this)
      · rw [hsnd] at hrun
        exact absurd hrun hnrun
    · show ((updateTask st.tasks id fun _ => final).map (·.1)).Nodup
      rw [updateTask_map_fst]
      exact h7
  | completeErr id err =>
    obtain ⟨hact, hninq⟩ := hc
    apply drainAux_inv
    refine ⟨?_, List.Nodup.erase id h2, h3, ?_, ?_, ?_, ?_⟩
    · show (st.active.erase id).length ≤ limit
      exact le_trans (List.Sublist.length_le (List.erase_sublist id st.active)) h1
    · show ∀ x ∈ st.queue, x ∉ st.active.erase id
      exact fun x hx hc2 => h4 x hx (List.mem_of_mem_erase hc2)
    · show ∀ x, x ∈ st.active.erase id ∨ x ∈ st.queue →
        (((updateTask st.tasks id fun t =>
            { t with status := .failed, updatedAt := st.now, lastError := some err }).lookup
          x).isSome = true)
      intro x hx
      rw [lookup_updateTask_isSome]
      apply h5
      rcases hx with hx | hx
      · exact Or.inl (List.mem_of_mem_erase hx)
      · exact Or.inr hx
    · show ∀ kv ∈ updateTask st.tasks id fun t =>
          { t with status := .failed, updatedAt := st.now, lastError := some err },
        kv.2.status = .running → kv.1 ∈ st.active.erase id
      intro kv hkv hrun
      rcases mem_updateTask st.tasks id _ kv hkv with ⟨kv0, hmem, hfst, hcase⟩
      rcases hcase with ⟨hne, hsnd⟩ | ⟨hid, hsnd⟩
      · have : kv0.2.status = .running := by rw [← hsnd]; exact hrun
        rw [hfst] at hne ⊢
        exact (List.mem_erase_of_ne hne).mpr (h6 kv0 hmem this)
      · rw [hsnd] at hrun
        cases hrun
    · show ((updateTask st.tasks id fun t =>
          { t with status := .failed, updatedAt := st.now, lastError := some err }).map
          (·.1)).Nodup
      rw [updateTask_map_fst]
      exact h7

theorem initial_inv (limit : Nat) : RuntimeInv limit initialRuntimeState := by
  refine ⟨by simp [initialRuntimeState], by simp [initialRuntimeState],
    by simp [initialRuntimeState], ?_, ?_, ?_, by simp [initialRuntimeState]⟩
  · intro id hid
    simp [initialRuntimeState] at hid
  · intro id hid
    simp [initialRuntimeState] at hid
  · intro kv hkv
    simp [initialRuntimeState] at hkv

theorem runtimeRun_inv (limit : Nat) :
    ∀ (cmds : List RuntimeCmd) (st : RuntimeState), RuntimeInv limit st →
      TraceWF limit st cmds → RuntimeInv limit (runtimeRun limit st cmds) := by
  intro cmds
  induction cmds with
  | nil => exact fun st h _ => h
  | cons cmd rest ih =>
    intro st h hwf
    exact ih _ (runtimeStep_inv limit st cmd h hwf.1) hwf.2

theorem runtimeStep_started_queue (limit : Nat) (st : RuntimeState) (cmd : RuntimeCmd) :
    (runtimeStep limit st cmd).started ++ (runtimeStep limit st cmd).queue =
      st.started ++ st.queue ++ enqueuedIds [cmd] := by
  cases cmd with
  | enqueue task =>
    show (drainQueue limit _).started ++ (drainQueue limit _).queue = _
    rw [drainQueue, drainAux_started_queue]
    simp [enqueuedIds]
  | completeOk id final =>
    show (drainQueue limit _).started ++ (drainQueue limit _).queue = _
    rw [drainQueue, drainAux_started_queue]
    simp [enqueuedIds]
  | completeErr id err =>
    show (drainQueue limit _).started ++ (drainQueue limit _).queue = _
    rw [drainQueue, drainAux_started_queue]
    simp [enqueuedIds]

theorem enqueuedIds_append (a b : List RuntimeCmd) :
    enqueuedIds (a ++ b) = enqueuedIds a ++ enqueuedIds b := by
  induction a with
  | nil => rfl
  | cons cmd rest ih =>
    cases cmd <;> simp [enqueuedIds, ih]

theorem runtimeRun_cons (limit : Nat) (st : RuntimeState) (cmd : RuntimeCmd)
    (rest : List RuntimeCmd) :
    runtimeRun limit st (cmd :: rest) = runtimeRun limit (runtimeStep limit st cmd) rest := rfl

theorem runtimeRun_started_queue (limit : Nat) :
    ∀ (cmds : List RuntimeCmd) (st : RuntimeState),
      (runtimeRun limit st cmds).started ++ (runtimeRun limit st cmds).queue =
        st.started ++ st.queue ++ enqueuedIds cmds := by
  intro cmds
  induction cmds with
  | nil => simp [runtimeRun, enqueuedIds]
  | cons cmd rest ih =>
    intro st
    rw [runtimeRun_cons, ih, runtimeStep_started_queue]
    have : enqueuedIds (cmd :: rest) = enqueuedIds [cmd] ++ enqueuedIds rest := by
      rw [show cmd :: rest = [cmd] ++ rest from rfl, enqueuedIds_append]
    rw [this]
    simp [List.append_assoc]

theorem runtimeStep_active_le (limit : Nat) (st : RuntimeState) (cmd : RuntimeCmd)
    (h : st.active.length ≤ limit) :
    (runtimeStep limit st cmd).active.length ≤ limit := by
  cases cmd with
  | enqueue task => exact drainAux_active_le limit _ _ h
  | completeOk id final =>
    apply drainAux_active_le
    exact le_trans (List.Sublist.length_le (List.erase_sublist id st.active)) h
  | completeErr id err =>
    apply drainAux_active_le
    exact le_trans (List.Sublist.length_le (List.erase_sublist id st.active)) h

theorem runtimeRun_active_le (limit : Nat) :
    ∀ (cmds : List RuntimeCmd) (st : RuntimeState), st.active.length ≤ limit →
      (runtimeRun limit st cmds).active.length ≤ limit := by
  intro cmds
  induction cmds with
  | nil => exact fun st h => h
  | cons cmd rest ih =>
    intro st h
    exact ih _ (runtimeStep_active_le limit st cmd h)

theorem runningIds_le_of_inv (limit : Nat) (st : RuntimeState)
    (h : RuntimeInv limit st) : (runningIds st).length ≤ limit := by
  obtain ⟨h1, h2, _, _, _, h6, h7⟩ := h
  have hnodup : (runningIds st).Nodup := by
    unfold runningIds
    exact List.Nodup.sublist (List.Sublist.map _ (List.filter_sublist _)) h7
  have hsub : runningIds st ⊆ st.active := by
    intro x hx
    unfold runningIds at hx
    rcases List.mem_map.mp hx with ⟨kv, hkv, rfl⟩
    have := List.of_mem_filter hkv
    exact h6 kv (List.mem_of_mem_filter hkv) (by simpa using this)
  exact le_trans (List.Subperm.length_le (List.subperm_of_subset hnodup hsub)) h1

theorem drainQueue_pop (limit : Nat) (st : RuntimeState) (qh : String) (qrest : List String)
    (hq : st.queue = qh :: qrest) (hlt : st.active.length < limit) :
    qh ∈ (drainQueue limit st).started := by
  rw [drainQueue, hq]
  show qh ∈ (drainAux limit (qrest.length + 1) st).started
  rw [drainAux_succ, hq]
  dsimp only
  rw [if_pos hlt]
  exact drainAux_started_mono limit _ _ qh (List.mem_append.mpr (Or.inr (List.mem_singleton.mpr rfl)))

/-- C5: the number of `running` tasks (equivalently `|activeTaskIds|`)
never exceeds `maxParallelTasks`; queued tasks are started in strict FIFO
submission order; and an orchestration that rejects leaves its task
`failed` with `lastError`, emits `task-failed`, releases the capacity
slot, and the freed slot immediately starts the queue head. -/
theorem scheduler_spec (limit : Nat) :
    (∀ cmds : List RuntimeCmd,
      (runtimeRun limit initialRuntimeState cmds).active.length ≤ limit)
  ∧ (∀ cmds : List RuntimeCmd, TraceWF limit initialRuntimeState cmds →
      (runningIds (runtimeRun limit initialRuntimeState cmds)).length ≤ limit)
  ∧ (∀ cmds : List RuntimeCmd,
      (runtimeRun limit initialRuntimeState cmds).started ++
        (runtimeRun limit initialRuntimeState cmds).queue = enqueuedIds cmds)
  ∧ (∀ (st : RuntimeState) (id : String) (err : String),
      st.active.Nodup → id ∉ st.queue →
      (runtimeStep limit st (.completeErr id err)).tasks.lookup id =
        (st.tasks.lookup id).map (fun t =>
          { t with status := .failed, updatedAt := st.now, lastError := some err }) ∧
      AgentEvent.taskFailed id err ∈ (runtimeStep limit st (.completeErr id err)).events ∧
      id ∉ (runtimeStep limit st (.completeErr id err)).active ∧
      (∀ qh qrest, st.queue = qh :: qrest → (st.active.erase id).length < limit →
        qh ∈ (runtimeStep limit st (.completeErr id err)).started)) := by
  refine ⟨?_, ?_, ?_, ?_⟩
  · intro cmds
    exact runtimeRun_active_le limit cmds initialRuntimeState (by simp [initialRuntimeState])
  · intro cmds hwf
    exact runningIds_le_of_inv limit _ (runtimeRun_inv limit cmds _ (initial_inv limit) hwf)
  · intro cmds
    rw [runtimeRun_started_queue]
    simp [initialRuntimeState]
  · intro st id err hnodup hninq
    refine ⟨?_, ?_, ?_, ?_⟩
    · show (drainAux limit _ _).tasks.lookup id = _
      refine Eq.trans (drainAux_lookup_of_not_queue limit _ _ id ?_) ?_
      · exact hninq
      · exact lookup_updateTask_self st.tasks id
          (fun t => { t with status := .failed, updatedAt := st.now, lastError := some err })
    · show AgentEvent.taskFailed id err ∈ (drainAux limit _ _).events
      rw [drainAux_events]
      exact List.mem_append.mpr (Or.inr (List.mem_singleton.mpr rfl))
    · show id ∉ (drainAux limit _ _).active
      intro hcon
      rcases drainAux_active_sub limit _ _ id hcon with hcon | hcon
      · exact (List.Nodup.not_mem_erase hnodup) hcon
      · exact hninq hcon
    · intro qh qrest hq hlt
      exact drainQueue_pop limit _ qh qrest hq hlt

/-- Witness for C5: limit 1, two submissions and a rejecting first
orchestration; the second task is started by the freed slot. -/
theorem scheduler_spec_witness :
    (runtimeRun 1 initialRuntimeState
      [.enqueue (freshTask "t1" "g1"), .enqueue (freshTask "t2" "g2"),
       .completeErr "t1" "boom"]).active.length ≤ 1
  ∧ (runningIds (runtimeRun 1 initialRuntimeState
      [.enqueue (freshTask "t1" "g1"), .enqueue (freshTask "t2" "g2"),
       .completeErr "t1" "boom"])).length ≤ 1
  ∧ (runtimeRun 1 initialRuntimeState
      [.enqueue (freshTask "t1" "g1"), .enqueue (freshTask "t2" "g2"),
       .completeErr "t1" "boom"]).started ++
      (runtimeRun 1 initialRuntimeState
        [.enqueue (freshTask "t1" "g1"), .enqueue (freshTask "t2" "g2"),
         .completeErr "t1" "boom"]).queue = ["t1", "t2"] := by
  have hwf : TraceWF 1 initialRuntimeState
      [.enqueue (freshTask "t1" "g1"), .enqueue (freshTask "t2" "g2"),
       .completeErr "t1" "boom"] := by
    refine ⟨⟨rfl, rfl⟩, ⟨by decide, rfl⟩, ⟨by decide, by decide⟩, trivial⟩
  refine ⟨(scheduler_spec 1).1 _, (scheduler_spec 1).2.1 _ hwf, ?_⟩
  rw [(scheduler_spec 1).2.2.1 _]
  rfl

/-! ## JSON wrapper equivalence (C6) -/

theorem digit_toNat (c : Char) (h : c.isDigit = true) :
    48 ≤ c.val.toNat ∧ c.val.toNat ≤ 57 := by
  have h2 := h
  unfold Char.isDigit at h2
  simp only [Bool.and_eq_true, decide_eq_true_eq] at h2
  exact ⟨h2.1, h2.2⟩

theorem isJsWs_of_digit (c : Char) (h : c.isDigit = true) : isJsWs c = false := by
  obtain ⟨h1, h2⟩ := digit_toNat c h
  unfold isJsWs
  simp only [Bool.or_eq_false_iff, Bool.and_eq_false_iff, decide_eq_false_iff_not]
  repeat' apply And.intro
  all_goals first
  | (intro hx; rw [hx] at h1; exact absurd h1 (by decide))
  | (intro hx; rw [hx] at h2; exact absurd h2 (by decide))
  | (left
     intro hx
     have hx2 : (8192:UInt32).toNat ≤ c.val.toNat := hx
     have he : (8192:UInt32).toNat = 8192 := rfl
     omega)

theorem isJsonWs_of_isJsWs (c : Char) (h : isJsWs c = false) : isJsonWs c = false := by
  unfold isJsWs at h
  unfold isJsonWs
  simp only [Bool.or_eq_false_iff] at h ⊢
  exact ⟨⟨⟨h.1.1.1.1.1.1.1.1.1.1.1.1.1.1, h.1.1.1.1.1.1.1.1.1.1.1.1.1.2⟩,
    h.1.1.1.1.1.1.1.1.1.1.1.1.2⟩, h.1.1.1.1.1.1.1.1.1.1.1.2⟩

theorem digit_ne_chars (c : Char) (h : c.isDigit = true) :
    c ≠ 'n' ∧ c ≠ 't' ∧ c ≠ 'f' ∧ c ≠ '"' ∧ c ≠ '[' ∧ c ≠ braceOpen ∧ c ≠ ']' := by
  refine ⟨?_, ?_, ?_, ?_, ?_, ?_, ?_⟩
  all_goals intro hx
  all_goals rw [hx] at h
  all_goals exact absurd h (by decide)

theorem skipWs_cons (c : Char) (t : List Char) (h : isJsonWs c = false) :
    skipWs (c :: t) = c :: t := by
  unfold skipWs
  rw [List.dropWhile_cons]
  simp [h]

theorem dropWhile_append_stop (p : Char → Bool) (c1 z : List Char) (x : Char)
    (hx : p x = false) :
    List.dropWhile p (c1 ++ x :: z) = List.dropWhile p c1 ++ x :: z := by
  induction c1 with
  | nil => simp [List.dropWhile_cons, hx]
  | cons c t ih =>
    rcases hpc : p c with _ | _
    · simp [List.dropWhile_cons, hpc]
    · simp [List.dropWhile_cons, hpc, ih]

theorem parseStringBody_esc (e d : Char) (rest : List Char)
    (he : e ≠ 'u')
    (hd : (if e = '"' then some '"'
           else if e = '\\' then some '\\'
           else if e = '/' then some '/'
           else if e = 'n' then some '\n'
           else if e = 't' then some '\t'
           else if e = 'r' then some (Char.ofNat 13)
           else if e = 'b' then some (Char.ofNat 8)
           else if e = 'f' then some (Char.ofNat 12)
           else none) = some d) :
    parseStringBody ('\\' :: e :: rest) =
      (match parseStringBody rest with
       | some (s, r) => some (d :: s, r)
       | none => none) := by
  conv_lhs => rw [parseStringBody.eq_def]
  dsimp only
  rw [if_neg (show ¬('\\' = '"') by decide), if_pos rfl]
  rw [if_neg he, hd]

theorem parseStringBody_plain (c : Char) (rest : List Char)
    (h1 : c ≠ '"') (h2 : c ≠ '\\') (h3 : ¬(c.val < 32)) :
    parseStringBody (c :: rest) =
      (match parseStringBody rest with
       | some (s, r) => some (c :: s, r)
       | none => none) := by
  conv_lhs => rw [parseStringBody.eq_def]
  dsimp only
  rw [if_neg h1, if_neg h2, if_neg h3]

theorem escape_case (c e : Char) (t rest : List Char)
    (hone : escapeChar c = ['\\', e]) (he : e ≠ 'u')
    (hd : (if e = '"' then some '"'
           else if e = '\\' then some '\\'
           else if e = '/' then some '/'
           else if e = 'n' then some '\n'
           else if e = 't' then some '\t'
           else if e = 'r' then some (Char.ofNat 13)
           else if e = 'b' then some (Char.ofNat 8)
           else if e = 'f' then some (Char.ofNat 12)
           else none) = some c)
    (hih : parseStringBody (escapeString t ++ '"' :: rest) = some (t, rest)) :
    parseStringBody ((escapeChar c ++ escapeString t) ++ '"' :: rest) =
      some (c :: t, rest) := by
  rw [List.append_assoc, hone]
  rw [show (['\\', e] : List Char) ++ (escapeString t ++ '"' :: rest) =
        '\\' :: e :: (escapeString t ++ '"' :: rest) from rfl]
  rw [parseStringBody_esc e c _ he hd, hih]

theorem parseStringBody_escapeString (s : List Char) (rest : List Char)
    (h : ∀ c ∈ s, 32 ≤ c.val ∨ c = '\n' ∨ c = '\t' ∨ c.val = 13 ∨ c.val = 8 ∨ c.val = 12) :
    parseStringBody (escapeString s ++ '"' :: rest) = some (s, rest) := by
  induction s with
  | nil =>
    show parseStringBody ('"' :: rest) = some ([], rest)
    conv_lhs => rw [parseStringBody.eq_def]
    dsimp only
    rw [if_pos rfl]
  | cons c t ih =>
    have hc := h c (List.mem_cons_self _ _)
    have hih := ih (fun x hx => h x (List.mem_cons_of_mem _ hx))
    show parseStringBody ((escapeChar c ++ escapeString t) ++ '"' :: rest) =
      some (c :: t, rest)
    by_cases h1 : c = '"'
    · subst h1
      exact escape_case _ '"' _ _ rfl (by decide) rfl hih
    by_cases h2 : c = '\\'
    · subst h2
      exact escape_case _ '\\' _ _ rfl (by decide) rfl hih
    by_cases h3 : c = '\n'
    · subst h3
      exact escape_case _ 'n' _ _ rfl (by decide) rfl hih
    by_cases h4 : c = '\t'
    · subst h4
      exact escape_case _ 't' _ _ rfl (by decide) rfl hih
    by_cases h5 : c.val = 13
    · have hcc : c = Char.ofNat 13 := Char.ext (by rw [h5]; rfl)
      subst hcc
      exact escape_case _ 'r' _ _ rfl (by decide) rfl hih
    by_cases h6 : c.val = 8
    · have hcc : c = Char.ofNat 8 := Char.ext (by rw [h6]; rfl)
      subst hcc
      exact escape_case _ 'b' _ _ rfl (by decide) rfl hih
    by_cases h7 : c.val = 12
    · have hcc : c = Char.ofNat 12 := Char.ext (by rw [h7]; rfl)
      subst hcc
      exact escape_case _ 'f' _ _ rfl (by decide) rfl hih
    have h32 : 32 ≤ c.val := by
      rcases hc with hx | hx | hx | hx | hx | hx
      · exact hx
      · exact absurd hx h3
      · exact absurd hx h4
      · exact absurd hx h5
      · exact absurd hx h6
      · exact absurd hx h7
    have hone : escapeChar c = [c] := by
      unfold escapeChar
      rw [if_neg h1, if_neg h2, if_neg h3, if_neg h4, if_neg h5, if_neg h6, if_neg h7]
    have hnlt : ¬(c.val < 32) := by
      intro hlt
      have hlt2 : c.val.toNat < (32:UInt32).toNat := hlt
      have hge : (32:UInt32).toNat ≤ c.val.toNat := h32
      have he32 : (32:UInt32).toNat = 32 := rfl
      omega
    rw [List.append_assoc, hone]
    rw [show ([c] : List Char) ++ (escapeString t ++ '"' :: rest) =
          c :: (escapeString t ++ '"' :: rest) from rfl]
    rw [parseStringBody_plain c _ h1 h2 hnlt, hih]

theorem takeWhile_digits (ds rest : List Char)
    (h : ∀ c ∈ ds, c.isDigit = true)
    (hrest : rest = [] ∨ ∃ c t, rest = c :: t ∧ c.isDigit = false) :
    (ds ++ rest).takeWhile Char.isDigit = ds ∧
    (ds ++ rest).dropWhile Char.isDigit = rest := by
  induction ds with
  | nil =>
    rcases hrest with h0 | ⟨c, t, rfl, hc⟩
    · subst h0; simp
    · simp [List.takeWhile_cons, List.dropWhile_cons, hc]
  | cons d ds2 ih =>
    have hd := h d (List.mem_cons_self _ _)
    have h2 := ih (fun c hc => h c (List.mem_cons_of_mem _ hc))
    simp only [List.cons_append, List.takeWhile_cons, List.dropWhile_cons, hd,
      if_true, h2.1, h2.2]
    simp

theorem noLeadingZero_elim (ds : List Char) (h : noLeadingZero ds = true) :
    ∀ t, ds = '0' :: t → t = [] := by
  intro t ht
  subst ht
  unfold noLeadingZero at h
  dsimp only at h
  rw [if_pos rfl] at h
  exact of_decide_eq_true h

theorem parseIntPart_digits (ds rest : List Char)
    (hne : ds ≠ []) (hdig : ∀ c ∈ ds, c.isDigit = true)
    (hzero : noLeadingZero ds = true)
    (hrest : rest = [] ∨ ∃ c t, rest = c :: t ∧ c.isDigit = false) :
    parseIntPart (ds ++ rest) = some (ds, rest) := by
  match ds, hne with
  | d :: ds2, _ =>
    by_cases h0 : d = '0'
    · subst h0
      have h2 : ds2 = [] := noLeadingZero_elim _ hzero ds2 rfl
      subst h2
      show parseIntPart ('0' :: rest) = some (['0'], rest)
      unfold parseIntPart
      dsimp only
      rw [if_pos rfl]
    · show parseIntPart (d :: (ds2 ++ rest)) = _
      unfold parseIntPart
      dsimp only
      rw [if_neg h0, if_pos (hdig d (List.mem_cons_self _ _))]
      have htw := takeWhile_digits ds2 rest
        (fun c hc => hdig c (List.mem_cons_of_mem _ hc)) hrest
      rw [htw.1, htw.2]

theorem parseFracPart_stop (rest : List Char)
    (hrest : rest = [] ∨ ∃ c t, rest = c :: t ∧ c ≠ '.') :
    parseFracPart rest = some ([], rest) := by
  rcases hrest with h0 | ⟨c, t, rfl, hc⟩
  · subst h0; rfl
  · unfold parseFracPart
    dsimp only
    rw [if_neg hc]

theorem parseExpPart_stop (rest : List Char)
    (hrest : rest = [] ∨ ∃ c t, rest = c :: t ∧ c ≠ 'e' ∧ c ≠ 'E') :
    parseExpPart rest = some ([], rest) := by
  rcases hrest with h0 | ⟨c, t, rfl, hc1, hc2⟩
  · subst h0; rfl
  · unfold parseExpPart
    dsimp only
    rw [if_neg (by simp [hc1, hc2])]

theorem parseNumber_simple (l rest : List Char)
    (h : isSimpleNumLexeme l = true)
    (hrest : rest = [] ∨
      ∃ c t, rest = c :: t ∧ c.isDigit = false ∧ c ≠ '.' ∧ c ≠ 'e' ∧ c ≠ 'E') :
    parseNumber (l ++ rest) = some (l, rest) := by
  have hrd : rest = [] ∨ ∃ c t, rest = c :: t ∧ c.isDigit = false := by
    rcases hrest with h0 | ⟨c, t, hr, hc, _, _, _⟩
    · exact Or.inl h0
    · exact Or.inr ⟨c, t, hr, hc⟩
  have hrf : rest = [] ∨ ∃ c t, rest = c :: t ∧ c ≠ '.' := by
    rcases hrest with h0 | ⟨c, t, hr, _, hc, _, _⟩
    · exact Or.inl h0
    · exact Or.inr ⟨c, t, hr, hc⟩
  have hre : rest = [] ∨ ∃ c t, rest = c :: t ∧ c ≠ 'e' ∧ c ≠ 'E' := by
    rcases hrest with h0 | ⟨c, t, hr, _, _, hc1, hc2⟩
    · exact Or.inl h0
    · exact Or.inr ⟨c, t, hr, hc1, hc2⟩
  match l with
  | [] => exact absurd h (by decide)
  | c :: t =>
    unfold isSimpleNumLexeme at h
    dsimp only at h
    by_cases hminus : c = '-'
    · subst hminus
      rw [if_pos rfl] at h
      simp only [Bool.and_eq_true, decide_eq_true_eq, List.all_eq_true] at h
      obtain ⟨⟨hne, hall⟩, hzero⟩ := h
      show parseNumber ('-' :: (t ++ rest)) = _
      unfold parseNumber
      dsimp only
      rw [if_pos rfl]
      dsimp only
      rw [parseIntPart_digits t rest hne hall hzero hrd]
      dsimp only
      rw [parseFracPart_stop rest hrf]
      dsimp only
      rw [parseExpPart_stop rest hre]
      simp
    · rw [if_neg hminus] at h
      simp only [Bool.and_eq_true, List.all_eq_true] at h
      obtain ⟨hall, hzero⟩ := h
      show parseNumber (c :: (t ++ rest)) = _
      unfold parseNumber
      dsimp only
      rw [if_neg hminus]
      dsimp only
      rw [show c :: (t ++ rest) = (c :: t) ++ rest from rfl]
      rw [parseIntPart_digits (c :: t) rest (by simp) hall hzero hrd]
      dsimp only
      rw [parseFracPart_stop rest hrf]
      dsimp only
      rw [parseExpPart_stop rest hre]
      simp

theorem simpleNum_head (l : List Char) (h : isSimpleNumLexeme l = true) :
    ∃ c t, l = c :: t ∧ (c = '-' ∨ c.isDigit = true) := by
  match l with
  | [] => exact absurd h (by decide)
  | c :: t =>
    unfold isSimpleNumLexeme at h
    dsimp only at h
    by_cases hm : c = '-'
    · exact ⟨c, t, rfl, Or.inl hm⟩
    · rw [if_neg hm] at h
      simp only [Bool.and_eq_true, List.all_eq_true] at h
      exact ⟨c, t, rfl, Or.inr (h.1 c (List.mem_cons_self _ _))⟩

theorem render_head (v : Json) (h : Renderable v) :
    ∃ c t, Json.render v = c :: t ∧ isJsWs c = false ∧ c ≠ ']' := by
  match v with
  | .null => exact ⟨'n', _, rfl, by decide, by decide⟩
  | .bool true => exact ⟨'t', _, rfl, by decide, by decide⟩
  | .bool false => exact ⟨'f', _, rfl, by decide, by decide⟩
  | .str s => exact ⟨'"', _, rfl, by decide, by decide⟩
  | .arr xs => exact ⟨'[', _, rfl, by decide, by decide⟩
  | .obj m => exact ⟨braceOpen, _, rfl, by decide, by decide⟩
  | .num lex =>
    obtain ⟨c, t, hl, hc⟩ := simpleNum_head lex.data h
    refine ⟨c, t, ?_, ?_, ?_⟩
    · show lex.data = c :: t
      exact hl
    · rcases hc with rfl | hd
      · decide
      · exact isJsWs_of_digit c hd
    · rcases hc with rfl | hd
      · decide
      · exact (digit_ne_chars c hd).2.2.2.2.2.2

theorem skipWs_render (w : Json) (hw : Renderable w) (Z : List Char) :
    skipWs (Json.render w ++ Z) = Json.render w ++ Z := by
  obtain ⟨c, t, hh, hws, _⟩ := render_head w hw
  rw [hh, List.cons_append, skipWs_cons _ _ (isJsonWs_of_isJsWs _ hws)]

theorem parseValue_quote (f : Nat) (X : List Char) :
    parseValue (f + 1) ('"' :: X) =
      (match parseStringBody X with
       | some (s, r) => some (.str (String.mk s), r)
       | none => none) := rfl

theorem parseValue_lbracket (f : Nat) (X : List Char) :
    parseValue (f + 1) ('[' :: X) =
      (match skipWs X with
       | [] => none
       | c2 :: r =>
         if c2 = ']' then some (.arr .nil, r)
         else
           match parseElements f (c2 :: r) with
           | some (xs, r2) => some (.arr xs, r2)
           | none => none) := rfl

theorem parseValue_lbrace (f : Nat) (X : List Char) :
    parseValue (f + 1) (braceOpen :: X) =
      (match skipWs X with
       | [] => none
       | c2 :: r =>
         if c2 = braceClose then some (.obj .nil, r)
         else
           match parseMembers f (c2 :: r) with
           | some (m, r2) => some (.obj m, r2)
           | none => none) := rfl

theorem parseElements_succ (g : Nat) (L : List Char) :
    parseElements (g + 1) L =
      (match parseValue g (skipWs L) with
       | none => none
       | some (v, r1) =>
         match skipWs r1 with
         | [] => none
         | c2 :: t2 =>
           if c2 = ',' then
             match parseElements g t2 with
             | some (tl, r2) => some (.cons v tl, r2)
             | none => none
           else if c2 = ']' then some (.cons v .nil, t2)
           else none) := rfl

theorem parseMembers_succ (g : Nat) (L : List Char) :
    parseMembers (g + 1) L =
      (match skipWs L with
       | [] => none
       | c :: t =>
         if c = '"' then
           match parseStringBody t with
           | none => none
           | some (key, r1) =>
             match skipWs r1 with
             | [] => none
             | c2 :: t2 =>
               if c2 = ':' then
                 match parseValue g (skipWs t2) with
                 | none => none
                 | some (v, r2) =>
                   match skipWs r2 with
                   | [] => none
                   | c3 :: t3 =>
                     if c3 = ',' then
                       match parseMembers g t3 with
                       | some (tl, r3) => some (.cons (String.mk key) v tl, r3)
                       | none => none
                     else if c3 = braceClose then some (.cons (String.mk key) v .nil, t3)
                     else none
               else none
         else none) := rfl

theorem parseValue_num_dispatch (f : Nat) (c : Char) (t : List Char)
    (hc : c = '-' ∨ c.isDigit = true) :
    parseValue (f + 1) (c :: t) =
      (match parseNumber (c :: t) with
       | some (lex, r) => some (.num (String.mk lex), r)
       | none => none) := by
  rcases hc with rfl | hd
  · rfl
  · obtain ⟨h1, h2, h3, h4, _, _, _⟩ := digit_ne_chars c hd
    conv_lhs => rw [parseValue.eq_def]
    dsimp only
    rw [if_neg h1, if_neg h2, if_neg h3, if_neg h4,
      if_pos (Or.inr hd)]

theorem parseElements_render (N : Nat)
    (VIH : ∀ v : Json, jsize v ≤ N → Renderable v → ∀ f rest, stopper rest →
      jsize v < f → parseValue f (Json.render v ++ rest) = some (v, rest)) :
    ∀ g : Nat, ∀ ys : JsonList, jsizeList ys ≤ N → RenderableList ys →
    ∀ w tw, ys = .cons w tw → ∀ rest2, jsizeList ys < g →
    parseElements g (Json.render w ++ (renderElemsRest tw ++ ']' :: rest2)) =
      some (.cons w tw, rest2) := by
  intro g
  induction g with
  | zero =>
    intro ys _ _ w tw _ rest2 hg
    exact absurd hg (by omega)
  | succ g1 ihg =>
    intro ys hsz hren w tw heq rest2 hg
    subst heq
    obtain ⟨hw, htw⟩ := (hren : Renderable w ∧ RenderableList tw)
    have hsz2 : (1 + jsize w + jsizeList tw : Nat) ≤ N := hsz
    have hg2 : (1 + jsize w + jsizeList tw : Nat) < g1 + 1 := hg
    rw [parseElements_succ, skipWs_render w hw]
    have hstop2 : stopper (renderElemsRest tw ++ ']' :: rest2) := by
      match tw with
      | .nil => exact Or.inr ⟨']', rest2, rfl, Or.inr (Or.inl rfl)⟩
      | .cons a b =>
        exact Or.inr ⟨',', (Json.render a ++ renderElemsRest b) ++ ']' :: rest2,
          rfl, Or.inl rfl⟩
    rw [VIH w (by omega) hw g1 _ hstop2 (by omega)]
    dsimp only
    rcases tw with _ | ⟨w1, tw1⟩
    · rw [show renderElemsRest .nil ++ ']' :: rest2 = ']' :: rest2 from rfl]
      rw [skipWs_cons _ _ (by decide)]
      dsimp only
      rw [if_neg (by decide), if_pos rfl]
    · rw [show renderElemsRest (.cons w1 tw1) ++ ']' :: rest2
            = ',' :: (Json.render w1 ++ (renderElemsRest tw1 ++ ']' :: rest2)) by
        rw [show renderElemsRest (.cons w1 tw1)
              = ',' :: (Json.render w1 ++ renderElemsRest tw1) from rfl]
        simp]
      rw [skipWs_cons _ _ (by decide)]
      dsimp only
      rw [if_pos rfl]
      have hsz3 : (1 + jsize w1 + jsizeList tw1 : Nat) = jsizeList (.cons w1 tw1) := rfl
      rw [ihg (.cons w1 tw1) (by omega) htw w1 tw1 rfl rest2 (by omega)]

theorem parseMembers_render (N : Nat)
    (VIH : ∀ v : Json, jsize v ≤ N → Renderable v → ∀ f rest, stopper rest →
      jsize v < f → parseValue f (Json.render v ++ rest) = some (v, rest)) :
    ∀ g : Nat, ∀ ms : JsonMembers, jsizeMembers ms ≤ N → RenderableMembers ms →
    ∀ k w tw, ms = .cons k w tw → ∀ rest2, jsizeMembers ms < g →
    parseMembers g (renderMembersFirst ms ++ braceClose :: rest2) =
      some (ms, rest2) := by
  intro g
  induction g with
  | zero =>
    intro ms _ _ k w tw _ rest2 hg
    exact absurd hg (by omega)
  | succ g1 ihg =>
    intro ms hsz hren k w tw heq rest2 hg
    subst heq
    obtain ⟨hk, hw, htw⟩ :=
      (hren : strOk k ∧ Renderable w ∧ RenderableMembers tw)
    have hsz2 : (1 + jsize w + jsizeMembers tw : Nat) ≤ N := hsz
    have hg2 : (1 + jsize w + jsizeMembers tw : Nat) < g1 + 1 := hg
    rw [parseMembers_succ]
    rw [show renderMembersFirst (.cons k w tw) ++ braceClose :: rest2 =
          '"' :: ((escapeString k.data ++ '"' :: ':' :: (Json.render w ++ renderMembersRest tw))
            ++ braceClose :: rest2) from rfl]
    rw [skipWs_cons _ _ (by decide)]
    dsimp only
    rw [if_pos rfl]
    rw [List.append_assoc]
    rw [show ('"' :: ':' :: (Json.render w ++ renderMembersRest tw)) ++ braceClose :: rest2 =
          '"' :: (':' :: ((Json.render w ++ renderMembersRest tw) ++ braceClose :: rest2)) from rfl]
    rw [parseStringBody_escapeString k.data _ hk]
    dsimp only
    rw [skipWs_cons _ _ (by decide)]
    dsimp only
    rw [if_pos rfl]
    rw [List.append_assoc]
    rw [skipWs_render w hw]
    have hstop2 : stopper (renderMembersRest tw ++ braceClose :: rest2) := by
      match tw with
      | .nil => exact Or.inr ⟨braceClose, rest2, rfl, Or.inr (Or.inr rfl)⟩
      | .cons k2 w2 tw2 =>
        exact Or.inr ⟨',', ('"' :: (escapeString k2.data ++ '"' :: ':'
          :: (Json.render w2 ++ renderMembersRest tw2))) ++ braceClose :: rest2,
          rfl, Or.inl rfl⟩
    rw [VIH w (by omega) hw g1 _ hstop2 (by omega)]
    dsimp only
    rcases tw with _ | ⟨k2, w2, tw2⟩
    · rw [show renderMembersRest .nil ++ braceClose :: rest2 = braceClose :: rest2 from rfl]
      rw [skipWs_cons _ _ (by decide)]
      dsimp only
      rw [if_neg (by decide), if_pos rfl]
    · rw [show renderMembersRest (.cons k2 w2 tw2) ++ braceClose :: rest2 =
            ',' :: (renderMembersFirst (.cons k2 w2 tw2) ++ braceClose :: rest2) from rfl]
      rw [skipWs_cons _ _ (by decide)]
      dsimp only
      rw [if_pos rfl]
      have hsz3 : (1 + jsize w2 + jsizeMembers tw2 : Nat) = jsizeMembers (.cons k2 w2 tw2) := rfl
      rw [ihg (.cons k2 w2 tw2) (by omega) htw k2 w2 tw2 rfl rest2 (by omega)]

theorem parseValue_render (n : Nat) :
    ∀ v : Json, jsize v ≤ n → Renderable v →
    ∀ f rest, stopper rest → jsize v < f →
    parseValue f (Json.render v ++ rest) = some (v, rest) := by
  induction n using Nat.strong_induction_on with
  | _ n IH =>
    intro v hn hren f rest hstop hf
    obtain ⟨f1, rfl⟩ : ∃ f1, f = f1 + 1 := ⟨f - 1, by omega⟩
    match v with
    | .null => rfl
    | .bool true => rfl
    | .bool false => rfl
    | .num lex =>
      have hlex : isSimpleNumLexeme lex.data = true := hren
      have hnum : rest = [] ∨
          ∃ c t, rest = c :: t ∧ c.isDigit = false ∧ c ≠ '.' ∧ c ≠ 'e' ∧ c ≠ 'E' := by
        rcases hstop with h0 | ⟨c, t, hr, hc⟩
        · exact Or.inl h0
        · refine Or.inr ⟨c, t, hr, ?_, ?_, ?_, ?_⟩ <;>
            (rcases hc with rfl | rfl | rfl <;> decide)
      obtain ⟨c, t, hl, hc⟩ := simpleNum_head lex.data hlex
      rw [show Json.render (.num lex) = lex.data from rfl, hl, List.cons_append]
      rw [parseValue_num_dispatch f1 c (t ++ rest) hc]
      rw [show c :: (t ++ rest) = (c :: t) ++ rest from rfl, ← hl]
      rw [parseNumber_simple lex.data rest hlex hnum]
    | .str s =>
      have hok : strOk s := hren
      rw [show Json.render (.str s) ++ rest =
            '"' :: (escapeString s.data ++ '"' :: rest) by
        rw [show Json.render (.str s) = '"' :: (escapeString s.data ++ ['"']) from rfl]
        simp]
      rw [parseValue_quote, parseStringBody_escapeString s.data rest hok]
    | .arr xs =>
      have hxs : RenderableList xs := hren
      have hsz : (1 + jsizeList xs : Nat) ≤ n := hn
      have hfa : (1 + jsizeList xs : Nat) < f1 + 1 := hf
      rw [show Json.render (.arr xs) ++ rest =
            '[' :: (renderElemsFirst xs ++ ']' :: rest) by
        rw [show Json.render (.arr xs) = '[' :: (renderElemsFirst xs ++ [']']) from rfl]
        simp]
      rw [parseValue_lbracket]
      have hVIH : ∀ w : Json, jsize w ≤ jsizeList xs → Renderable w →
          ∀ g r2, stopper r2 → jsize w < g →
          parseValue g (Json.render w ++ r2) = some (w, r2) := by
        intro w hwsz hwren g r2 hst hg
        exact IH (jsize w) (by omega) w le_rfl hwren g r2 hst hg
      rcases xs with _ | ⟨w, tw⟩
      · rw [show renderElemsFirst .nil ++ ']' :: rest = ']' :: rest from rfl]
        rw [skipWs_cons _ _ (by decide)]
        dsimp only
        rw [if_pos rfl]
      · obtain ⟨hw, htw⟩ := (hren : Renderable w ∧ RenderableList tw)
        obtain ⟨c, t, hh, hws, hnrb⟩ := render_head w hw
        have hsz4 : (1 + jsize w + jsizeList tw : Nat) = jsizeList (.cons w tw) := rfl
        rw [show renderElemsFirst (.cons w tw) ++ ']' :: rest =
              Json.render w ++ (renderElemsRest tw ++ ']' :: rest) by
          rw [show renderElemsFirst (.cons w tw) =
                Json.render w ++ renderElemsRest tw from rfl]
          simp]
        rw [show Json.render w ++ (renderElemsRest tw ++ ']' :: rest) =
              c :: (t ++ (renderElemsRest tw ++ ']' :: rest)) by rw [hh]; simp]
        rw [skipWs_cons _ _ (isJsonWs_of_isJsWs _ hws)]
        dsimp only
        rw [if_neg hnrb]
        rw [show c :: (t ++ (renderElemsRest tw ++ ']' :: rest)) =
              Json.render w ++ (renderElemsRest tw ++ ']' :: rest) by rw [hh]; simp]
        rw [parseElements_render (jsizeList (JsonList.cons w tw)) hVIH f1
          (.cons w tw) le_rfl ⟨hw, htw⟩ w tw rfl rest (by omega)]
    | .obj m =>
      have hm : RenderableMembers m := hren
      have hsz : (1 + jsizeMembers m : Nat) ≤ n := hn
      have hfa : (1 + jsizeMembers m : Nat) < f1 + 1 := hf
      rw [show Json.render (.obj m) ++ rest =
            braceOpen :: (renderMembersFirst m ++ braceClose :: rest) by
        rw [show Json.render (.obj m) =
              braceOpen :: (renderMembersFirst m ++ [braceClose]) from rfl]
        simp]
      rw [parseValue_lbrace]
      have hVIH : ∀ w : Json, jsize w ≤ jsizeMembers m → Renderable w →
          ∀ g r2, stopper r2 → jsize w < g →
          parseValue g (Json.render w ++ r2) = some (w, r2) := by
        intro w hwsz hwren g r2 hst hg
        exact IH (jsize w) (by omega) w le_rfl hwren g r2 hst hg
      rcases m with _ | ⟨k, w, tw⟩
      · rw [show renderMembersFirst .nil ++ braceClose :: rest = braceClose :: rest from rfl]
        rw [skipWs_cons _ _ (by decide)]
        dsimp only
        rw [if_pos rfl]
      · have hsz4 : (1 + jsize w + jsizeMembers tw : Nat) = jsizeMembers (.cons k w tw) := rfl
        rw [show renderMembersFirst (.cons k w tw) ++ braceClose :: rest =
              '"' :: ((escapeString k.data ++ '"' :: ':' :: (Json.render w ++ renderMembersRest tw))
                ++ braceClose :: rest) from rfl]
        rw [skipWs_cons _ _ (by decide)]
        dsimp only
        rw [if_neg (by decide)]
        rw [show '"' :: ((escapeString k.data ++ '"' :: ':' :: (Json.render w ++ renderMembersRest tw))
              ++ braceClose :: rest) =
            renderMembersFirst (.cons k w tw) ++ braceClose :: rest from rfl]
        rw [parseMembers_render (jsizeMembers (JsonMembers.cons k w tw)) hVIH f1
          (.cons k w tw) le_rfl hm k w tw rfl rest (by omega)]

theorem renderElemsRest_length (xs : JsonList) :
    (renderElemsRest xs).length ≤ (renderElemsFirst xs).length + 1 := by
  rcases xs with _ | ⟨v, tl⟩
  · simp [renderElemsRest, renderElemsFirst]
  · rw [show renderElemsRest (.cons v tl) =
        ',' :: (Json.render v ++ renderElemsRest tl) from rfl,
      show renderElemsFirst (.cons v tl) =
        Json.render v ++ renderElemsRest tl from rfl]
    simp

theorem renderMembersRest_length (ms : JsonMembers) :
    (renderMembersRest ms).length ≤ (renderMembersFirst ms).length + 1 := by
  rcases ms with _ | ⟨k, w, tw⟩
  · simp [renderMembersRest, renderMembersFirst]
  · rw [show renderMembersRest (.cons k w tw) =
        ',' :: ('"' :: (escapeString k.data ++ '"' :: ':'
          :: (Json.render w ++ renderMembersRest tw))) from rfl,
      show renderMembersFirst (.cons k w tw) =
        '"' :: (escapeString k.data ++ '"' :: ':'
          :: (Json.render w ++ renderMembersRest tw)) from rfl]
    simp

theorem jsize_le_render_aux (n : Nat) :
    (∀ v : Json, jsize v ≤ n → Renderable v → jsize v ≤ (Json.render v).length)
  ∧ (∀ xs : JsonList, jsizeList xs ≤ n → RenderableList xs →
      jsizeList xs ≤ (renderElemsRest xs).length)
  ∧ (∀ ms : JsonMembers, jsizeMembers ms ≤ n → RenderableMembers ms →
      jsizeMembers ms ≤ (renderMembersRest ms).length) := by
  induction n using Nat.strong_induction_on with
  | _ n IH =>
    refine ⟨?_, ?_, ?_⟩
    · intro v hn hren
      match v with
      | .null => simp [jsize, Json.render]
      | .bool true =>
        rw [show jsize (.bool true) = 1 from rfl,
          show Json.render (.bool true) = ['t', 'r', 'u', 'e'] from rfl]
        simp
      | .bool false =>
        rw [show jsize (.bool false) = 1 from rfl,
          show Json.render (.bool false) = ['f', 'a', 'l', 's', 'e'] from rfl]
        simp
      | .num lex =>
        obtain ⟨c, t, hl, _⟩ := simpleNum_head lex.data hren
        rw [show jsize (.num lex) = 1 from rfl,
          show Json.render (.num lex) = lex.data from rfl, hl]
        simp
      | .str s =>
        rw [show jsize (.str s) = 1 from rfl,
          show Json.render (.str s) = '"' :: (escapeString s.data ++ ['"']) from rfl]
        simp
      | .arr xs =>
        have h1 : (1 + jsizeList xs : Nat) ≤ n := hn
        have h2 : jsizeList xs ≤ (renderElemsRest xs).length :=
          (IH (n - 1) (by omega)).2.1 xs (by omega) hren
        have h3 := renderElemsRest_length xs
        rw [show jsize (.arr xs) = 1 + jsizeList xs from rfl,
          show Json.render (.arr xs) = '[' :: (renderElemsFirst xs ++ [']']) from rfl]
        simp only [List.length_cons, List.length_append, List.length_singleton]
        omega
      | .obj m =>
        have h1 : (1 + jsizeMembers m : Nat) ≤ n := hn
        have h2 : jsizeMembers m ≤ (renderMembersRest m).length :=
          (IH (n - 1) (by omega)).2.2 m (by omega) hren
        have h3 := renderMembersRest_length m
        rw [show jsize (.obj m) = 1 + jsizeMembers m from rfl,
          show Json.render (.obj m) = braceOpen :: (renderMembersFirst m ++ [braceClose]) from rfl]
        simp only [List.length_cons, List.length_append, List.length_singleton]
        omega
    · intro xs hn hren
      rcases xs with _ | ⟨v, tl⟩
      · simp [jsizeList, renderElemsRest]
      · obtain ⟨hv, htl⟩ := (hren : Renderable v ∧ RenderableList tl)
        have h0 : (1 + jsize v + jsizeList tl : Nat) ≤ n := hn
        have h1 : jsize v ≤ (Json.render v).length :=
          (IH (n - 1) (by omega)).1 v (by omega) hv
        have h2 : jsizeList tl ≤ (renderElemsRest tl).length :=
          (IH (n - 1) (by omega)).2.1 tl (by omega) htl
        rw [show jsizeList (.cons v tl) = 1 + jsize v + jsizeList tl from rfl,
          show renderElemsRest (.cons v tl) =
            ',' :: (Json.render v ++ renderElemsRest tl) from rfl]
        simp only [List.length_cons, List.length_append]
        omega
    · intro ms hn hren
      rcases ms with _ | ⟨k, w, tw⟩
      · simp [jsizeMembers, renderMembersRest]
      · obtain ⟨hk, hw, htw⟩ :=
          (hren : strOk k ∧ Renderable w ∧ RenderableMembers tw)
        have h0 : (1 + jsize w + jsizeMembers tw : Nat) ≤ n := hn
        have h1 : jsize w ≤ (Json.render w).length :=
          (IH (n - 1) (by omega)).1 w (by omega) hw
        have h2 : jsizeMembers tw ≤ (renderMembersRest tw).length :=
          (IH (n - 1) (by omega)).2.2 tw (by omega) htw
        rw [show jsizeMembers (.cons k w tw) = 1 + jsize w + jsizeMembers tw from rfl,
          show renderMembersRest (.cons k w tw) =
            ',' :: ('"' :: (escapeString k.data ++ '"' :: ':'
              :: (Json.render w ++ renderMembersRest tw))) from rfl]
        simp only [List.length_cons, List.length_append]
        omega

theorem jsize_le_render (v : Json) (h : Renderable v) :
    jsize v ≤ (Json.render v).length :=
  (jsize_le_render_aux (jsize v)).1 v le_rfl h

theorem jsonParseL_render (v : Json) (h : Renderable v) :
    jsonParseL (Json.render v) = some v := by
  have hsw : skipWs (Json.render v) = Json.render v := by
    obtain ⟨c, t, hh, hws, _⟩ := render_head v h
    rw [hh, skipWs_cons _ _ (isJsonWs_of_isJsWs _ hws)]
  have hpv := parseValue_render (jsize v) v le_rfl h
    ((Json.render v).length + 1) [] (Or.inl rfl)
    (by have := jsize_le_render v h; omega)
  rw [List.append_nil] at hpv
  unfold jsonParseL
  rw [hsw, hpv]
  dsimp only
  rw [if_pos (show skipWs [] = [] from rfl)]

theorem jsTrimL_wrap (c1 c2 rv : List Char)
    (hhead : ∃ hd t, rv = hd :: t ∧ isJsWs hd = false)
    (hlast : ∃ ii ll, rv = ii ++ [ll] ∧ isJsWs ll = false) :
    jsTrimL (c1 ++ rv ++ c2) =
      List.dropWhile isJsWs c1 ++ rv ++ (List.dropWhile isJsWs c2.reverse).reverse := by
  obtain ⟨hd, t, hh, hws⟩ := hhead
  obtain ⟨ii, ll, hl, hlws⟩ := hlast
  unfold jsTrimL
  have s1 : List.dropWhile isJsWs (c1 ++ rv ++ c2) =
      List.dropWhile isJsWs c1 ++ (rv ++ c2) := by
    rw [List.append_assoc, hh, List.cons_append]
    rw [dropWhile_append_stop _ _ _ _ hws]
  rw [s1]
  have s2 : (List.dropWhile isJsWs c1 ++ (rv ++ c2)).reverse
      = c2.reverse ++ ll :: (ii.reverse ++ (List.dropWhile isJsWs c1).reverse) := by
    rw [hl]
    simp [List.reverse_append]
  rw [s2, dropWhile_append_stop _ _ _ _ hlws]
  have s3 : (List.dropWhile isJsWs c2.reverse
        ++ ll :: (ii.reverse ++ (List.dropWhile isJsWs c1).reverse)).reverse
      = List.dropWhile isJsWs c1 ++ rv ++ (List.dropWhile isJsWs c2.reverse).reverse := by
    rw [hl]
    simp [List.reverse_append]
  rw [s3]

theorem findIdx_wrap (needle : Char) (a z : List Char) (hnot : needle ∉ a) :
    ∀ i : Nat, List.findIdx? (fun x => x = needle) (a ++ needle :: z) i =
      some (i + a.length) := by
  induction a with
  | nil =>
    intro i
    rw [List.nil_append, List.findIdx?_cons]
    simp
  | cons c ta ih =>
    intro i
    have hc : c ≠ needle := fun hx => hnot (hx ▸ List.mem_cons_self _ _)
    rw [List.cons_append, List.findIdx?_cons]
    rw [if_neg (by simp [hc])]
    rw [ih (fun hx => hnot (List.mem_cons_of_mem _ hx)) (i + 1)]
    simp only [List.length_cons]
    congr 1
    omega

theorem jsIndexOf_wrap (a z : List Char) (c : Char) (hnot : c ∉ a) :
    jsIndexOf (a ++ c :: z) c = some a.length := by
  unfold jsIndexOf
  rw [findIdx_wrap c a z hnot 0]
  simp

theorem jsLastIndexOf_wrap (a b z : List Char) (c : Char) (hnot : c ∉ b) :
    jsLastIndexOf (a ++ (z ++ [c]) ++ b) c =
      some (a.length + z.length) := by
  unfold jsLastIndexOf
  have hrev : (a ++ (z ++ [c]) ++ b).reverse
      = b.reverse ++ c :: (z.reverse ++ a.reverse) := by
    simp [List.reverse_append]
  rw [hrev]
  have hnotrev : c ∉ b.reverse := by simpa using hnot
  rw [findIdx_wrap c b.reverse (z.reverse ++ a.reverse) hnotrev 0]
  simp only [Nat.zero_add, List.length_reverse, List.length_append,
    List.length_singleton]
  congr 1
  omega

theorem jsSlice_wrap (a rv b : List Char) :
    jsSlice (a ++ rv ++ b) a.length (a.length + rv.length) = rv := by
  unfold jsSlice
  rw [List.append_assoc, List.drop_left]
  have h1 : a.length + rv.length - a.length = rv.length := by omega
  rw [h1, List.take_left]

theorem jsonParseL_grave (t : List Char) : jsonParseL (graveAccent :: t) = none := rfl

theorem ne_empty_of_data (s : String) (h : s.data ≠ []) : s ≠ "" :=
  fun hx => h (by rw [hx])

theorem parseJsonFromText_core (text : String) (m : JsonMembers) (a b : List Char)
    (hren : Renderable (Json.obj m))
    (hne : text ≠ "")
    (htrim : jsTrimL text.data = a ++ Json.render (Json.obj m) ++ b)
    (ha : braceOpen ∉ a) (hb : braceClose ∉ b)
    (hdirect : jsonParseL (a ++ Json.render (Json.obj m) ++ b) = none) :
    parseJsonFromText text = some (Json.obj m) := by
  unfold parseJsonFromText
  rw [if_neg hne]
  dsimp only
  rw [htrim, hdirect]
  dsimp only
  have hidx : jsIndexOf (a ++ Json.render (Json.obj m) ++ b) braceOpen = some a.length := by
    rw [List.append_assoc]
    rw [show Json.render (Json.obj m) ++ b =
          braceOpen :: ((renderMembersFirst m ++ [braceClose]) ++ b) from rfl]
    exact jsIndexOf_wrap a _ braceOpen ha
  have hlast : jsLastIndexOf (a ++ Json.render (Json.obj m) ++ b) braceClose
      = some (a.length + (braceOpen :: renderMembersFirst m).length) := by
    rw [show Json.render (Json.obj m) =
          (braceOpen :: renderMembersFirst m) ++ [braceClose] from rfl]
    exact jsLastIndexOf_wrap a b _ braceClose hb
  rw [hidx, hlast]
  dsimp only
  rw [if_neg (by rw [List.length_cons]; omega)]
  have hslice : jsSlice (a ++ Json.render (Json.obj m) ++ b) a.length
      (a.length + (braceOpen :: renderMembersFirst m).length + 1)
      = Json.render (Json.obj m) := by
    have hlen : a.length + (braceOpen :: renderMembersFirst m).length + 1
        = a.length + (Json.render (Json.obj m)).length := by
      rw [show Json.render (Json.obj m) =
            braceOpen :: (renderMembersFirst m ++ [braceClose]) from rfl]
      simp
      omega
    rw [hlen]
    exact jsSlice_wrap a _ b
  rw [hslice, jsonParseL_render _ hren]

/-- C6: `parseJsonFromText` applied to the canonical text of a valid JSON
object, to that text wrapped in brace-free prose, and to that text wrapped in
a markdown code fence all return the same parsed object — the prose case
under the additional hypothesis (absent from the original claim and refuted
without it by `parse_json_wrappers_counterexample`) that the wrapped text as
a whole does not itself parse as JSON; and when neither the trimmed input nor
the substring from its first opening brace to its last closing brace parses
as JSON, the result is null. -/
theorem parse_json_wrappers_spec (m : JsonMembers) (c1 c2 : String)
    (hren : Renderable (Json.obj m))
    (hb1 : braceFree c1) (hb2 : braceFree c2)
    (hdirect : jsonParseL (jsTrimL (c1.data ++ Json.render (Json.obj m) ++ c2.data)) = none) :
    parseJsonFromText (String.mk (Json.render (Json.obj m))) = some (Json.obj m)
  ∧ parseJsonFromText (c1 ++ String.mk (Json.render (Json.obj m)) ++ c2) = some (Json.obj m)
  ∧ parseJsonFromText (String.mk (fenceOpen ++ Json.render (Json.obj m) ++ fenceClose))
      = some (Json.obj m)
  ∧ (∀ text : String, text ≠ "" →
      jsonParseL (jsTrimL text.data) = none →
      (∀ i j, jsIndexOf (jsTrimL text.data) braceOpen = some i →
        jsLastIndexOf (jsTrimL text.data) braceClose = some j →
        i < j → jsonParseL (jsSlice (jsTrimL text.data) i (j + 1)) = none) →
      parseJsonFromText text = none) := by
  have hhead : ∃ hd t, Json.render (Json.obj m) = hd :: t ∧ isJsWs hd = false :=
    ⟨braceOpen, renderMembersFirst m ++ [braceClose], rfl, by decide⟩
  have hlast : ∃ ii ll, Json.render (Json.obj m) = ii ++ [ll] ∧ isJsWs ll = false :=
    ⟨braceOpen :: renderMembersFirst m, braceClose, rfl, by decide⟩
  refine ⟨?_, ?_, ?_, ?_⟩
  · have hne : String.mk (Json.render (Json.obj m)) ≠ "" := by
      apply ne_empty_of_data
      rw [show (String.mk (Json.render (Json.obj m))).data
            = Json.render (Json.obj m) from rfl]
      rw [show Json.render (Json.obj m)
            = braceOpen :: (renderMembersFirst m ++ [braceClose]) from rfl]
      exact List.cons_ne_nil _ _
    unfold parseJsonFromText
    rw [if_neg hne]
    dsimp only
    have htrim : jsTrimL (String.mk (Json.render (Json.obj m))).data
        = Json.render (Json.obj m) := by
      have h0 := jsTrimL_wrap [] [] (Json.render (Json.obj m)) hhead hlast
      simp only [List.nil_append, List.append_nil, List.reverse_nil,
        List.dropWhile_nil] at h0
      exact h0
    rw [htrim, jsonParseL_render _ hren]
  · have hdata : (c1 ++ String.mk (Json.render (Json.obj m)) ++ c2).data
        = c1.data ++ Json.render (Json.obj m) ++ c2.data := by
      simp [String.data_append]
    have hne : (c1 ++ String.mk (Json.render (Json.obj m)) ++ c2) ≠ "" := by
      apply ne_empty_of_data
      rw [hdata]
      rw [show Json.render (Json.obj m)
            = braceOpen :: (renderMembersFirst m ++ [braceClose]) from rfl]
      simp
    have htrim : jsTrimL (c1 ++ String.mk (Json.render (Json.obj m)) ++ c2).data
        = List.dropWhile isJsWs c1.data ++ Json.render (Json.obj m)
            ++ (List.dropWhile isJsWs c2.data.reverse).reverse := by
      rw [hdata]
      exact jsTrimL_wrap c1.data c2.data _ hhead hlast
    have ha : braceOpen ∉ List.dropWhile isJsWs c1.data :=
      fun hx => hb1.1 (List.Sublist.mem hx (List.dropWhile_sublist _))
    have hbM : braceClose ∉ (List.dropWhile isJsWs c2.data.reverse).reverse := by
      intro hx
      exact hb2.2 (List.mem_reverse.mp
        (List.Sublist.mem (List.mem_reverse.mp hx) (List.dropWhile_sublist _)))
    have hdir2 : jsonParseL (List.dropWhile isJsWs c1.data ++ Json.render (Json.obj m)
        ++ (List.dropWhile isJsWs c2.data.reverse).reverse) = none := by
      rw [jsTrimL_wrap c1.data c2.data _ hhead hlast] at hdirect
      exact hdirect
    exact parseJsonFromText_core _ m _ _ hren hne htrim ha hbM hdir2
  · have hne : String.mk (fenceOpen ++ Json.render (Json.obj m) ++ fenceClose) ≠ "" := by
      apply ne_empty_of_data
      rw [show (String.mk (fenceOpen ++ Json.render (Json.obj m) ++ fenceClose)).data
            = fenceOpen ++ Json.render (Json.obj m) ++ fenceClose from rfl]
      simp [fenceOpen]
    have htrim : jsTrimL (String.mk (fenceOpen ++ Json.render (Json.obj m) ++ fenceClose)).data
        = fenceOpen ++ Json.render (Json.obj m) ++ fenceClose := by
      rw [show (String.mk (fenceOpen ++ Json.render (Json.obj m) ++ fenceClose)).data
            = fenceOpen ++ Json.render (Json.obj m) ++ fenceClose from rfl]
      rw [jsTrimL_wrap fenceOpen fenceClose _ hhead hlast]
      rw [show List.dropWhile isJsWs fenceOpen = fenceOpen from rfl]
      rw [show (List.dropWhile isJsWs fenceClose.reverse).reverse = fenceClose from rfl]
    have hdir2 : jsonParseL (fenceOpen ++ Json.render (Json.obj m) ++ fenceClose) = none := by
      rw [show fenceOpen ++ Json.render (Json.obj m) ++ fenceClose
            = graveAccent :: (([graveAccent, graveAccent, 'j', 's', 'o', 'n', '\n']
                ++ Json.render (Json.obj m)) ++ fenceClose) from rfl]
      exact jsonParseL_grave _
    exact parseJsonFromText_core _ m fenceOpen fenceClose hren hne htrim
      (by decide) (by decide) hdir2
  · intro text hne hdir hslice
    unfold parseJsonFromText
    rw [if_neg hne]
    dsimp only
    rw [hdir]
    dsimp only
    rcases hI : jsIndexOf (jsTrimL text.data) braceOpen with _ | i
    · dsimp only
    · rcases hJ : jsLastIndexOf (jsTrimL text.data) braceClose with _ | j
      · dsimp only
      · dsimp only
        by_cases hle : j ≤ i
        · rw [if_pos hle]
        · rw [if_neg hle]
          rw [hslice i j hI hJ (by omega)]

/-- C6 counterexample: the canonical object text (for the empty object) is
correctly parsed on its own, but surrounding it with the brace-free prose
pieces, a quote-then-chatter prefix and suffix, makes the whole input a
valid JSON string literal, so `parseJsonFromText` returns that string, not
the object: the three wrapper forms do not always agree. -/
theorem parse_json_wrappers_counterexample :
    braceFree "\"a " ∧ braceFree " b\""
  ∧ ("\"a " ++ String.mk (Json.render (Json.obj .nil)) ++ " b\"") = "\"a \x7b\x7d b\""
  ∧ parseJsonFromText (String.mk (Json.render (Json.obj .nil))) = some (Json.obj .nil)
  ∧ parseJsonFromText "\"a \x7b\x7d b\"" = some (Json.str "a \x7b\x7d b")
  ∧ Json.str "a \x7b\x7d b" ≠ Json.obj .nil :=
  ⟨⟨by decide, by decide⟩, ⟨by decide, by decide⟩, by decide, rfl, rfl,
    fun h => Json.noConfusion h⟩

theorem parse_json_wrappers_spec_witness :
    (braceFree "note " ∧ braceFree " end"
      ∧ Renderable (Json.obj .nil)
      ∧ jsonParseL (jsTrimL (("note ").data ++ Json.render (Json.obj .nil)
          ++ (" end").data)) = none)
  ∧ (parseJsonFromText (String.mk (Json.render (Json.obj .nil))) = some (Json.obj .nil)
      ∧ parseJsonFromText ("note " ++ String.mk (Json.render (Json.obj .nil)) ++ " end")
          = some (Json.obj .nil)
      ∧ parseJsonFromText (String.mk (fenceOpen ++ Json.render (Json.obj .nil) ++ fenceClose))
          = some (Json.obj .nil)
      ∧ (∀ text : String, text ≠ "" →
          jsonParseL (jsTrimL text.data) = none →
          (∀ i j, jsIndexOf (jsTrimL text.data) braceOpen = some i →
            jsLastIndexOf (jsTrimL text.data) braceClose = some j →
            i < j → jsonParseL (jsSlice (jsTrimL text.data) i (j + 1)) = none) →
          parseJsonFromText text = none)) :=
  ⟨⟨⟨by decide, by decide⟩, ⟨by decide, by decide⟩, trivial, rfl⟩,
    parse_json_wrappers_spec .nil "note " " end" trivial
      ⟨by decide, by decide⟩ ⟨by decide, by decide⟩ rfl⟩
